import Mathlib

/-!
# Verification of the row-node cache (`rowNodeCache.ts`)

Shallow embedding of the block cache from
`src/community-modules/core/src/ts/modules/rowNodeCache/rowNodeCache.ts`.

The cache owns a registry mapping block numbers to blocks (a JS object,
modelled as an association list with the explicit numeric-sort traversal the
source performs), a provisional `virtualRowCount`, a `maxRowFound` flag, an
`active` lifecycle flag and a `blockCount` counter.  Blocks themselves are
external entities; the fields the cache reads from a block (block number,
last-accessed stamp, load state, the open-descendant predicate evaluated at
the current virtual row count, the display-index range, and the shallow row
list) are modelled as fields of `Blk`.  The externally reported viewport
(`rowRenderer.getFirstVirtualRenderedRow` / `getLastVirtualRenderedRow`) is
passed as explicit parameters.  Event dispatch and the load coordinator are
external collaborators; where an operation notifies them, the model returns a
flag recording the call.
-/

/-- Load state of a block (`RowNodeBlock.STATE_DIRTY` / `STATE_LOADING` /
`STATE_LOADED`).  Only `STATE_DIRTY` is inspected by the cache. -/
inductive BlockState where
  | dirty
  | loading
  | loaded
deriving DecidableEq, Repr

/-- The view of one block that the cache reads.  `anyOpen` is the result of
`block.isAnyNodeOpen(virtualRowCount)` at pass time; `displayStart` /
`displayEnd` are `getDisplayIndexStart()` / `getDisplayIndexEnd()` (absent
when the parent is collapsed); `rows` is the sequence of row nodes that
`forEachNodeShallow` visits, each row node identified by a number
(identity of JS objects). -/
structure Blk where
  num : Nat
  lastAccessed : Int
  state : BlockState
  anyOpen : Bool
  displayStart : Option Int
  displayEnd : Option Int
  rows : List Nat
deriving DecidableEq, Repr

/-- The cache configuration (`RowNodeCacheParams`).  `maxBlocksInCache` is an
optional cap; the source guards every use with `maxBlocksInCache > 0`, so an
absent cap is modelled as a non-positive value. -/
structure CacheParams where
  initialRowCount : Nat
  blockSize : Nat
  overflowSize : Nat
  maxBlocksInCache : Int
deriving DecidableEq, Repr

/-- Mutable state of `RowNodeCache`: `blocks` is the JS object keyed by block
number (association list), `blockCount` the separately maintained counter
(a JS number, so `Int`: the source decrements unconditionally). -/
structure CacheState where
  virtualRowCount : Nat
  maxRowFound : Bool
  active : Bool
  blocks : List (Nat × Blk)
  blockCount : Int
deriving DecidableEq, Repr

/-- `MAX_EMPTY_BLOCKS_TO_KEEP` constant of `RowNodeCache`. -/
def MAX_EMPTY_BLOCKS_TO_KEEP : Nat := 2

/-- Stable insertion into a list sorted by `le`: the new element goes in
front of the first element it compares `le` with. -/
def insortInsert (le : α → α → Bool) (a : α) : List α → List α
  | [] => [a]
  | x :: xs => if le a x then a :: x :: xs else x :: insortInsert le a xs

/-- Stable sort by `le` (insertion sort).  Models `Array.prototype.sort`,
which is required to be stable, with comparator-induced order `le`. -/
def insort (le : α → α → Bool) : List α → List α
  | [] => []
  | x :: xs => insortInsert le x (insort le xs)

/-- `getBlockIdsSorted`: all keys of the registry, sorted numerically
ascending. -/
def getBlockIdsSorted (s : CacheState) : List Nat :=
  insort (fun a b => a ≤ b) (s.blocks.map (fun q => q.1))

/-- `forEachBlockInOrder`: the `(id, block)` pairs visited, i.e. each sorted
key paired with its registry lookup. -/
def entriesInOrder (s : CacheState) : List (Nat × Blk) :=
  (getBlockIdsSorted s).filterMap
    (fun id => (s.blocks.find? (fun q => q.1 == id)).map (fun q => (id, q.2)))

/-- Destroying one block (`destroyBlock`): delete its key from the registry
and decrement `blockCount` (the loader unregistration is external). -/
def destroyBlockOp (s : CacheState) (b : Blk) : CacheState :=
  { s with blocks := s.blocks.filter (fun q => !(q.1 == b.num)),
           blockCount := s.blockCount - 1 }

/-- `setBlock`'s registry assignment `this.blocks[id] = block`: replace the
binding if the key exists, otherwise append it. -/
def setBlockMap (m : List (Nat × Blk)) (id : Nat) (b : Blk) : List (Nat × Blk) :=
  if m.any (fun q => q.1 == id) then
    m.map (fun q => if q.1 == id then (id, b) else q)
  else
    m ++ [(id, b)]

/-- `setBlock`: store the block under `id` and increment `blockCount`
(the loader registration is external). -/
def setBlockOp (s : CacheState) (id : Nat) (b : Blk) : CacheState :=
  { s with blocks := setBlockMap s.blocks id b, blockCount := s.blockCount + 1 }

/-- One registry mutation, for reasoning about operation sequences. -/
inductive CacheOp where
  | set (id : Nat) (b : Blk)
  | destroy (b : Blk)
deriving DecidableEq, Repr

/-- Apply one registry mutation. -/
def applyOp (s : CacheState) : CacheOp → CacheState
  | CacheOp.set id b => setBlockOp s id b
  | CacheOp.destroy b => destroyBlockOp s b

/-- Apply a sequence of registry mutations. -/
def applyOps (s : CacheState) (ops : List CacheOp) : CacheState :=
  ops.foldl applyOp s

/-- Whether the registry currently has a binding for `id`. -/
def hasKey (s : CacheState) (id : Nat) : Bool :=
  s.blocks.any (fun q => q.1 == id)

/-- A sequence of mutations is `legal` when every insertion uses a fresh key
and every removal targets a registered block. -/
def legalOps (s : CacheState) : List CacheOp → Bool
  | [] => true
  | CacheOp.set id b :: rest => !hasKey s id && legalOps (setBlockOp s id b) rest
  | CacheOp.destroy b :: rest => hasKey s b.num && legalOps (destroyBlockOp s b) rest

/-- `destroyAllBlocksPastVirtualRowCount`: collect every block whose start
row `id * blockSize` is at or past `virtualRowCount`, then destroy each. -/
def destroyAllBlocksPastVirtualRowCount (p : CacheParams) (s : CacheState) : CacheState :=
  (((entriesInOrder s).filter
      (fun q => decide (s.virtualRowCount ≤ q.1 * p.blockSize))).map (fun q => q.2)).foldl
    destroyBlockOp s

/-- `onCacheUpdated`: while active, destroy out-of-range blocks and dispatch
the `cacheUpdated` event (second component records the dispatch); when
inactive, do nothing. -/
def onCacheUpdated (p : CacheParams) (s : CacheState) : CacheState × Bool :=
  if s.active then (destroyAllBlocksPastVirtualRowCount p s, true) else (s, false)

/-- `setVirtualRowCount`: store the new count, optionally overwrite
`maxRowFound` (an absent argument leaves it unchanged), bump the count off an
exact block boundary while still searching, then run the update pass. -/
def setVirtualRowCount (p : CacheParams) (s : CacheState) (rowCount : Nat)
    (mrf : Option Bool) : CacheState × Bool :=
  let s1 := { s with virtualRowCount := rowCount }
  let s2 := match mrf with
    | some m => { s1 with maxRowFound := m }
    | none => s1
  let s3 :=
    if !s2.maxRowFound && s2.virtualRowCount % p.blockSize == 0 then
      { s2 with virtualRowCount := s2.virtualRowCount + 1 }
    else s2
  onCacheUpdated p s3

/-- `checkVirtualRowCount`: an authoritative non-negative `lastRow` fixes the
count and sets `maxRowFound`; otherwise, while still searching, grow the
count to the loaded block's end plus the overflow if that is larger. -/
def checkVirtualRowCount (p : CacheParams) (s : CacheState) (block : Blk)
    (lastRow : Option Int) : CacheState :=
  match lastRow with
  | some l =>
    if 0 ≤ l then
      { s with virtualRowCount := l.toNat, maxRowFound := true }
    else
      checkVirtualRowCountHeuristic p s block
  | none => checkVirtualRowCountHeuristic p s block
where
  checkVirtualRowCountHeuristic (p : CacheParams) (s : CacheState) (block : Blk) : CacheState :=
    if !s.maxRowFound then
      let lastRowIndexPlusOverflow := (block.num + 1) * p.blockSize + p.overflowSize
      if s.virtualRowCount < lastRowIndexPlusOverflow then
        { s with virtualRowCount := lastRowIndexPlusOverflow }
      else s
    else s

/-- Whether `lastRow` is an authoritative row count
(`typeof lastRow === 'number' && lastRow >= 0`). -/
def authoritative (lastRow : Option Int) : Bool :=
  match lastRow with
  | some l => decide (0 ≤ l)
  | none => false

/-- `purgeCache`: destroy every block, reset `maxRowFound`, re-seed the count
from `initialRowCount` only when it is zero, and run the update pass. -/
def purgeCache (p : CacheParams) (s : CacheState) : CacheState × Bool :=
  let s1 := ((entriesInOrder s).map (fun q => q.2)).foldl destroyBlockOp s
  let s2 := { s1 with maxRowFound := false }
  let s3 :=
    if s2.virtualRowCount == 0 then
      { s2 with virtualRowCount := p.initialRowCount }
    else s2
  onCacheUpdated p s3

/-- A load-complete event (`EVENT_LOAD_COMPLETE` payload). -/
structure LoadEvent where
  page : Blk
  lastRow : Option Int
  success : Bool
deriving DecidableEq, Repr

/-- Result of `onPageLoaded`: the new cache state, whether
`rowNodeBlockLoader.loadComplete()` was invoked, and whether a
`cacheUpdated` event was dispatched. -/
structure PageLoadedOutcome where
  state : CacheState
  loadCompleteCalled : Bool
  eventDispatched : Bool
deriving DecidableEq, Repr

/-- `onPageLoaded`: always release the loader's concurrency slot; then, only
while active and on success, apply the count check and the update pass. -/
def onPageLoaded (p : CacheParams) (s : CacheState) (ev : LoadEvent) : PageLoadedOutcome :=
  if !s.active then
    { state := s, loadCompleteCalled := true, eventDispatched := false }
  else if ev.success then
    let s1 := checkVirtualRowCount p s ev.page ev.lastRow
    let r := onCacheUpdated p s1
    { state := r.1, loadCompleteCalled := true, eventDispatched := r.2 }
  else
    { state := s, loadCompleteCalled := true, eventDispatched := false }

/-- `isBlockCurrentlyDisplayed`: the block overlaps the externally reported
viewport `[viewFirst, viewLast]`; absent display indexes mean the parent is
collapsed, hence not displayed. -/
def isBlockCurrentlyDisplayed (viewFirst viewLast : Int) (b : Blk) : Bool :=
  match b.displayStart, b.displayEnd with
  | some firstRowIndex, some displayEnd =>
    let lastRowIndex := displayEnd - 1
    let blockBeforeViewport := decide (viewLast < firstRowIndex)
    let blockAfterViewport := decide (lastRowIndex < viewFirst)
    !blockBeforeViewport && !blockAfterViewport
  | _, _ => false

/-- Candidate blocks of `purgeBlocksIfNeeded`: every block in traversal
order except the just-created one (identified by its key, under which
`setBlock` has just stored it). -/
def purgeCandidates (s : CacheState) (excludeId : Nat) : List Blk :=
  ((entriesInOrder s).filter (fun q => !(q.1 == excludeId))).map (fun q => q.2)

/-- The candidates sorted most-recently-accessed first
(`sort((a, b) => b.getLastAccessed() - a.getLastAccessed())`, stable). -/
def purgeSorted (s : CacheState) (excludeId : Nat) : List Blk :=
  insort (fun a b => decide (b.lastAccessed ≤ a.lastAccessed))
    (purgeCandidates s excludeId)

/-- The eviction test of `purgeBlocksIfNeeded` for the candidate at sorted
position `idx`: over the empty-block budget (dirty, position at or past
`MAX_EMPTY_BLOCKS_TO_KEEP - 1`) or over the capacity budget (cap configured,
position at or past `maxBlocksInCache - 1`), and protected by neither the
open-descendant nor the currently-displayed guard. -/
def shouldPurge (p : CacheParams) (viewFirst viewLast : Int) (idx : Nat) (b : Blk) : Bool :=
  let purgeBecauseBlockEmpty :=
    b.state == BlockState.dirty && decide (MAX_EMPTY_BLOCKS_TO_KEEP - 1 ≤ idx)
  let purgeBecauseCacheFull :=
    decide (0 < p.maxBlocksInCache) && decide (p.maxBlocksInCache - 1 ≤ (idx : Int))
  (purgeBecauseBlockEmpty || purgeBecauseCacheFull) &&
    !b.anyOpen && !isBlockCurrentlyDisplayed viewFirst viewLast b

/-- The blocks an eviction pass removes. -/
def blocksToPurge (p : CacheParams) (viewFirst viewLast : Int) (s : CacheState)
    (excludeId : Nat) : List Blk :=
  ((purgeSorted s excludeId).enum.filter
      (fun q => shouldPurge p viewFirst viewLast q.1 q.2)).map (fun q => q.2)

/-- `purgeBlocksIfNeeded`: destroy every selected candidate. -/
def purgeBlocksIfNeeded (p : CacheParams) (viewFirst viewLast : Int) (s : CacheState)
    (excludeId : Nat) : CacheState :=
  (blocksToPurge p viewFirst viewLast s excludeId).foldl destroyBlockOp s

/-- State threaded through `getRowNodesInRange`'s traversal. -/
structure RangeState where
  result : List Nat
  lastBlockId : Int
  inActiveRange : Bool
  foundGapInSelection : Bool
deriving DecidableEq, Repr

/-- Whether a visited row node is one of the two anchors
(`rowNode === firstInRange || rowNode === lastInRange`; an absent anchor
matches nothing). -/
def hitAnchor (firstInRange lastInRange : Option Nat) (r : Nat) : Bool :=
  firstInRange == some r || lastInRange == some r

/-- Processing one row inside `getRowNodesInRange`: rows are collected while
inside the active range or on an anchor, and an anchor toggles the flag
after being collected. -/
def stepRow (firstInRange lastInRange : Option Nat) (st : RangeState) (r : Nat) : RangeState :=
  let hit := hitAnchor firstInRange lastInRange r
  { st with
    result := if st.inActiveRange || hit then st.result ++ [r] else st.result,
    inActiveRange := if hit then !st.inActiveRange else st.inActiveRange }

/-- Processing one block inside `getRowNodesInRange`: once a gap is found
nothing more happens; entering a non-consecutive block while inside the
active range marks the gap; otherwise record the block id and walk the
block's rows shallowly. -/
def stepBlock (firstInRange lastInRange : Option Nat) (st : RangeState)
    (e : Nat × Blk) : RangeState :=
  if st.foundGapInSelection then st
  else if st.inActiveRange && !(st.lastBlockId + 1 == (e.1 : Int)) then
    { st with foundGapInSelection := true }
  else
    e.2.rows.foldl (stepRow firstInRange lastInRange)
      { st with lastBlockId := (e.1 : Int) }

/-- `getRowNodesInRange`: walk the blocks in ascending order; return the
collected rows unless a gap was found or the closing anchor was never
reached. -/
def getRowNodesInRange (s : CacheState) (firstInRange lastInRange : Option Nat) : List Nat :=
  let init : RangeState :=
    { result := [], lastBlockId := -1,
      inActiveRange := firstInRange.isNone, foundGapInSelection := false }
  let fin := (entriesInOrder s).foldl (stepBlock firstInRange lastInRange) init
  if fin.foundGapInSelection || fin.inActiveRange then [] else fin.result

/-- All rows of a block list, in order. -/
def rowsOf (es : List (Nat × Blk)) : List Nat :=
  (es.map (fun e => e.2.rows)).flatten

/-- All rows the cache holds, in traversal order. -/
def allRowsInOrder (s : CacheState) : List Nat :=
  rowsOf (entriesInOrder s)

/-- Take rows up to and including the first occurrence of `b`. -/
def takeToIncl (b : Nat) : List Nat → List Nat
  | [] => []
  | x :: xs => if x == b then [x] else x :: takeToIncl b xs

/-- The specification's reading of range materialization: the ordered rows
from anchor `a` to anchor `b` inclusive. -/
def rowsInRangeSpec (s : CacheState) (a b : Nat) : List Nat :=
  takeToIncl b ((allRowsInOrder s).dropWhile (fun r => !(r == a)))

/-- The rows collected while walking `rs` starting with range flag `act`
(result segment contributed by `rs`). -/
def rowSeg (firstInRange lastInRange : Option Nat) : Bool → List Nat → List Nat
  | _, [] => []
  | act, r :: rs =>
    (if act || hitAnchor firstInRange lastInRange r then [r] else []) ++
      rowSeg firstInRange lastInRange
        (if hitAnchor firstInRange lastInRange r then !act else act) rs

/-- The range flag after walking `rs` starting from `act`. -/
def rowAct (firstInRange lastInRange : Option Nat) : Bool → List Nat → Bool
  | act, [] => act
  | act, r :: rs =>
    rowAct firstInRange lastInRange
      (if hitAnchor firstInRange lastInRange r then !act else act) rs

/-- The traversal never takes the gap branch from `st` on: whenever the
active-range flag is set at a block boundary, that block's number is the
successor of the previous one. -/
def gapFree (firstInRange lastInRange : Option Nat) : RangeState → List (Nat × Blk) → Bool
  | _, [] => true
  | st, e :: ms =>
    (!st.inActiveRange || (st.lastBlockId + 1 == (e.1 : Int))) &&
      gapFree firstInRange lastInRange (stepBlock firstInRange lastInRange st e) ms

/-- The number of the last block of `ms`, or `d` when `ms` is empty. -/
def lastNumOr (d : Int) : List (Nat × Blk) → Int
  | [] => d
  | e :: ms => lastNumOr (e.1 : Int) ms

/-- `rs` contains neither anchor. -/
def noAnchor (a b : Nat) (rs : List Nat) : Prop :=
  ∀ r ∈ rs, r ≠ a ∧ r ≠ b

instance (a b : Nat) (rs : List Nat) : Decidable (noAnchor a b rs) := by
  unfold noAnchor
  infer_instance

/-- Registry well-formedness: block numbers (keys) are distinct. -/
def nodupKeys (s : CacheState) : Prop :=
  (s.blocks.map (fun q => q.1)).Nodup

instance (s : CacheState) : Decidable (nodupKeys s) := by
  unfold nodupKeys
  infer_instance

/-- Registry well-formedness: every block is stored under its own block
number (`setBlock` is always called with `newBlock.getBlockNumber()`). -/
def coherent (s : CacheState) : Prop :=
  ∀ q ∈ s.blocks, q.2.num = q.1

instance (s : CacheState) : Decidable (coherent s) := by
  unfold coherent
  infer_instance

/-- A run of blocks with consecutive ascending block numbers. -/
def consecRun : List (Nat × Blk) → Bool
  | [] => true
  | [_] => true
  | e :: e' :: ms => (e'.1 == e.1 + 1) && consecRun (e' :: ms)

/-- A closed, not-open, not-displayed block for concrete test states. -/
def mkBlk (n : Nat) (la : Int) (st : BlockState) (rs : List Nat) : Blk :=
  { num := n, lastAccessed := la, state := st, anyOpen := false,
    displayStart := none, displayEnd := none, rows := rs }

/-- Configuration with block size 10 and zero overflow. -/
def pEx0 : CacheParams :=
  { initialRowCount := 1, blockSize := 10, overflowSize := 0, maxBlocksInCache := 0 }

/-- Configuration with block size 10, overflow 5, no cap. -/
def pEx5 : CacheParams :=
  { initialRowCount := 20, blockSize := 10, overflowSize := 5, maxBlocksInCache := 0 }

/-- Configuration with block size 10, overflow 5 and a three-block cap. -/
def pCap3 : CacheParams :=
  { initialRowCount := 1, blockSize := 10, overflowSize := 5, maxBlocksInCache := 3 }

/-- Configuration with a one-block cap. -/
def pCap1 : CacheParams :=
  { initialRowCount := 1, blockSize := 10, overflowSize := 5, maxBlocksInCache := 1 }

/-- An empty active cache whose provisional count is 1. -/
def sEmpty1 : CacheState :=
  { virtualRowCount := 1, maxRowFound := false, active := true, blocks := [], blockCount := 0 }

/-- An inactive cache holding one block. -/
def sInactive : CacheState :=
  { virtualRowCount := 25, maxRowFound := false, active := false,
    blocks := [(0, mkBlk 0 0 BlockState.loaded [1, 2])], blockCount := 1 }

/-- A block with an open descendant. -/
def bOpen0 : Blk :=
  { num := 0, lastAccessed := 1, state := BlockState.loaded, anyOpen := true,
    displayStart := none, displayEnd := none, rows := [1] }

/-- Cache with an open block 0 and a freshly inserted block 1. -/
def sOpen : CacheState :=
  { virtualRowCount := 25, maxRowFound := false, active := true,
    blocks := [(0, bOpen0), (1, mkBlk 1 5 BlockState.loaded [2])], blockCount := 2 }

/-- The dirty candidate of the capacity counterexample. -/
def bDirty1 : Blk := mkBlk 1 5 BlockState.dirty [2]

/-- Cache with three blocks: 0 (loaded, recent), 1 (dirty, older), and the
freshly inserted 2; none open, none displayed. -/
def sCap : CacheState :=
  { virtualRowCount := 100, maxRowFound := false, active := true,
    blocks := [(0, mkBlk 0 10 BlockState.loaded [1]), (1, bDirty1),
               (2, mkBlk 2 20 BlockState.loaded [3])],
    blockCount := 3 }

/-- Cache holding rows 10..15 in consecutive blocks 0, 1, 2. -/
def sRun : CacheState :=
  { virtualRowCount := 100, maxRowFound := false, active := true,
    blocks := [(0, mkBlk 0 0 BlockState.loaded [10, 11]),
               (1, mkBlk 1 1 BlockState.loaded [12, 13]),
               (2, mkBlk 2 2 BlockState.loaded [14, 15])],
    blockCount := 3 }

/-- Cache holding blocks 0 and 2 with block 1 missing. -/
def sHole : CacheState :=
  { virtualRowCount := 100, maxRowFound := false, active := true,
    blocks := [(0, mkBlk 0 0 BlockState.loaded [10, 11]),
               (2, mkBlk 2 2 BlockState.loaded [14, 15])],
    blockCount := 2 }

/-- Cache whose smallest block number is 1 (block 0 missing). -/
def sNoZero : CacheState :=
  { virtualRowCount := 100, maxRowFound := false, active := true,
    blocks := [(1, mkBlk 1 1 BlockState.loaded [12, 13]),
               (2, mkBlk 2 2 BlockState.loaded [14, 15])],
    blockCount := 2 }

/-- Active cache with blocks 0 and 2 and a count of 15: block 2 starts at
row 20, past the count. -/
def sShrink : CacheState :=
  { virtualRowCount := 15, maxRowFound := false, active := true,
    blocks := [(0, mkBlk 0 0 BlockState.loaded [10, 11]),
               (2, mkBlk 2 2 BlockState.loaded [14, 15])],
    blockCount := 2 }

/-- Active cache with a nonzero count and `maxRowFound` set. -/
def sFound30 : CacheState :=
  { virtualRowCount := 30, maxRowFound := true, active := true, blocks := [], blockCount := 0 }

/-- Active cache with a zero count. -/
def sZero : CacheState :=
  { virtualRowCount := 0, maxRowFound := false, active := true, blocks := [], blockCount := 0 }

/-! ## Generic list lemmas -/

theorem insortInsert_perm (le : α → α → Bool) (a : α) (l : List α) :
    (insortInsert le a l).Perm (a :: l) := by
  induction l with
  | nil => simp [insortInsert]
  | cons x xs ih =>
    simp only [insortInsert]
    by_cases h : le a x
    · simp [h]
    · simp only [h]
      exact (List.Perm.cons x ih).trans (List.Perm.swap a x xs)

theorem insort_perm (le : α → α → Bool) (l : List α) : (insort le l).Perm l := by
  induction l with
  | nil => simp [insort]
  | cons x xs ih =>
    exact (insortInsert_perm le x (insort le xs)).trans (List.Perm.cons x ih)

theorem enumFrom_filter_lt_length_le (K : Nat) :
    ∀ (l : List α) (n : Nat),
      ((l.enumFrom n).filter (fun q => decide (q.1 < K))).length ≤ K - n := by
  intro l
  induction l with
  | nil => intro n; simp
  | cons a l ih =>
    intro n
    rw [List.enumFrom_cons, List.filter_cons]
    have hrec := ih (n + 1)
    by_cases h : n < K
    · rw [if_pos (by simpa using h)]
      rw [List.length_cons]
      omega
    · rw [if_neg (by simpa using h)]
      omega

theorem mem_enum_of_getElem? {l : List α} {i : Nat} {x : α} (h : l[i]? = some x) :
    (i, x) ∈ l.enum := by
  have henum : l.enum[i]? = some (i, x) := by
    rw [List.getElem?_enum, h]
    rfl
  exact List.mem_iff_getElem?.mpr ⟨i, henum⟩

theorem exists_enum_of_mem {l : List α} {x : α} (h : x ∈ l) :
    ∃ i, l[i]? = some x ∧ (i, x) ∈ l.enum := by
  rcases List.mem_iff_getElem?.mp h with ⟨i, hi⟩
  exact ⟨i, hi, mem_enum_of_getElem? hi⟩

theorem eq_of_mem_of_fst_eq {l : List (Nat × Blk)}
    (h : (l.map (fun q => q.1)).Nodup)
    {q q' : Nat × Blk} (hq : q ∈ l) (hq' : q' ∈ l) (he : q.1 = q'.1) : q = q' := by
  induction l with
  | nil => cases hq
  | cons p t ih =>
    rw [List.map_cons, List.nodup_cons] at h
    rcases List.mem_cons.mp hq with hq1 | hq2
    · rcases List.mem_cons.mp hq' with hq'1 | hq'2
      · rw [hq1, hq'1]
      · exfalso
        apply h.1
        have : q'.1 ∈ t.map (fun q => q.1) := List.mem_map_of_mem (fun q => q.1) hq'2
        rw [hq1] at he
        rw [he]
        exact this
    · rcases List.mem_cons.mp hq' with hq'1 | hq'2
      · exfalso
        apply h.1
        have : q.1 ∈ t.map (fun q => q.1) := List.mem_map_of_mem (fun q => q.1) hq2
        rw [hq'1] at he
        rw [he] at this
        exact this
      · exact ih h.2 hq2 hq'2

theorem find?_eq_of_nodupKeys {l : List (Nat × Blk)}
    (h : (l.map (fun q => q.1)).Nodup)
    {q : Nat × Blk} (hq : q ∈ l) : l.find? (fun x => x.1 == q.1) = some q := by
  induction l with
  | nil => cases hq
  | cons p l ih =>
    rw [List.map_cons, List.nodup_cons] at h
    rcases List.mem_cons.mp hq with rfl | hq
    · simp [List.find?_cons]
    · have hne : (p.1 == q.1) = false := by
        apply beq_eq_false_iff_ne.mpr
        intro he
        exact h.1 (he ▸ List.mem_map_of_mem (fun q => q.1) hq)
      rw [List.find?_cons, hne]
      exact ih h.2 hq

theorem map_fst_filterMap_sublist (f : Nat → Option (Nat × Blk))
    (h : ∀ id e, f id = some e → e.1 = id) :
    ∀ ids : List Nat, ((ids.filterMap f).map (fun q => q.1)).Sublist ids := by
  intro ids
  induction ids with
  | nil => simp
  | cons id rest ih =>
    rw [List.filterMap_cons]
    cases hf : f id with
    | none => exact List.Sublist.cons id ih
    | some e =>
      rw [List.map_cons, h id e hf]
      exact List.Sublist.cons₂ id ih

/-! ## Registry lemmas -/

theorem foldl_destroyBlockOp (l : List Blk) : ∀ s : CacheState,
    l.foldl destroyBlockOp s =
      { s with
        blocks := s.blocks.filter (fun q => l.all (fun b => !(q.1 == b.num))),
        blockCount := s.blockCount - l.length } := by
  induction l with
  | nil =>
    intro s
    simp
  | cons b l ih =>
    intro s
    rw [List.foldl_cons, ih]
    simp only [destroyBlockOp, List.filter_filter, List.length_cons]
    rw [CacheState.mk.injEq]
    refine ⟨rfl, rfl, rfl, ?_, by push_cast; omega⟩
    apply List.filter_congr
    intro x _
    simp only [List.all_cons]
    rw [Bool.and_comm]

theorem mem_blocks_of_mem_entriesInOrder {s : CacheState} {q : Nat × Blk}
    (h : q ∈ entriesInOrder s) : q ∈ s.blocks := by
  unfold entriesInOrder at h
  rcases List.mem_filterMap.mp h with ⟨id, _, hf⟩
  rcases Option.map_eq_some'.mp hf with ⟨q', hfind, hq⟩
  have hpred := List.find?_some hfind
  have hmem := List.mem_of_find?_eq_some hfind
  have hid : q'.1 = id := by simpa using hpred
  rw [← hq, ← hid]
  exact hmem

theorem mem_entriesInOrder_of_mem {s : CacheState} (hn : nodupKeys s)
    {q : Nat × Blk} (hq : q ∈ s.blocks) : q ∈ entriesInOrder s := by
  unfold entriesInOrder
  apply List.mem_filterMap.mpr
  refine ⟨q.1, ?_, ?_⟩
  · have hm : q.1 ∈ s.blocks.map (fun q => q.1) := List.mem_map_of_mem (fun q => q.1) hq
    exact ((insort_perm (fun a b => a ≤ b) (s.blocks.map (fun q => q.1))).mem_iff).mpr hm
  · rw [find?_eq_of_nodupKeys hn hq]
    rfl

theorem entriesInOrder_fst_nodup {s : CacheState} (hn : nodupKeys s) :
    ((entriesInOrder s).map (fun q => q.1)).Nodup := by
  unfold nodupKeys at hn
  have hids : (getBlockIdsSorted s).Nodup := by
    unfold getBlockIdsSorted
    exact ((insort_perm (fun a b => a ≤ b) (s.blocks.map (fun q => q.1))).nodup_iff).mpr hn
  have hsub := map_fst_filterMap_sublist
    (fun id => (s.blocks.find? (fun q => q.1 == id)).map (fun q => (id, q.2)))
    (by
      intro id e hf
      rcases Option.map_eq_some'.mp hf with ⟨q', _, hq⟩
      rw [← hq])
    (getBlockIdsSorted s)
  exact List.Nodup.sublist hsub hids

theorem setBlockMap_fresh {m : List (Nat × Blk)} {id : Nat} (b : Blk)
    (h : m.any (fun q => q.1 == id) = false) :
    setBlockMap m id b = m ++ [(id, b)] := by
  unfold setBlockMap
  rw [h]
  simp

/-! ## Update-pass projection lemmas -/

theorem destroyAll_fields (p : CacheParams) (s : CacheState) :
    (destroyAllBlocksPastVirtualRowCount p s).virtualRowCount = s.virtualRowCount ∧
    (destroyAllBlocksPastVirtualRowCount p s).maxRowFound = s.maxRowFound ∧
    (destroyAllBlocksPastVirtualRowCount p s).active = s.active := by
  unfold destroyAllBlocksPastVirtualRowCount
  rw [foldl_destroyBlockOp]
  exact ⟨rfl, rfl, rfl⟩

theorem onCacheUpdated_virtualRowCount (p : CacheParams) (s : CacheState) :
    (onCacheUpdated p s).1.virtualRowCount = s.virtualRowCount := by
  unfold onCacheUpdated
  by_cases h : s.active
  · simp [h, (destroyAll_fields p s).1]
  · simp [h]

theorem onCacheUpdated_maxRowFound (p : CacheParams) (s : CacheState) :
    (onCacheUpdated p s).1.maxRowFound = s.maxRowFound := by
  unfold onCacheUpdated
  by_cases h : s.active
  · simp [h, (destroyAll_fields p s).2.1]
  · simp [h]

/-! ## C1: boundary-avoidance of the virtual row count -/

/-- C1, counterexample: with `blockSize = 10` and `overflowSize = 0`, a load
completion without an authoritative last row leaves `maxRowFound` false yet
sets `virtualRowCount` to 10, an exact multiple of the block size — the
heuristic-growth path applies no boundary-avoidance adjustment. -/
theorem heuristic_growth_boundary_counterexample :
    (checkVirtualRowCount pEx0 sEmpty1 (mkBlk 0 0 BlockState.loaded []) none).maxRowFound
      = false ∧
    (checkVirtualRowCount pEx0 sEmpty1 (mkBlk 0 0 BlockState.loaded []) none).virtualRowCount
        % pEx0.blockSize = 0 := by
  decide

/-- C1 (amended): after `setVirtualRowCount` — the explicit-override path,
which is the one that applies the boundary-avoidance adjustment — if the
resulting `maxRowFound` is false and the block size is at least 2, the
resulting `virtualRowCount` is not an exact multiple of `blockSize`.  The
heuristic-growth path and the `purgeCache` reset do not enforce this. -/
theorem setVirtualRowCount_boundary_avoidance (p : CacheParams) (s : CacheState)
    (rowCount : Nat) (mrf : Option Bool) (hbs : 2 ≤ p.blockSize)
    (hflag : (setVirtualRowCount p s rowCount mrf).1.maxRowFound = false) :
    (setVirtualRowCount p s rowCount mrf).1.virtualRowCount % p.blockSize ≠ 0 := by
  have h1 : (1 : Nat) % p.blockSize = 1 := Nat.mod_eq_of_lt (by omega)
  unfold setVirtualRowCount at hflag ⊢
  cases mrf with
  | none =>
    by_cases hb : s.maxRowFound
    · rw [onCacheUpdated_maxRowFound] at hflag
      simp [hb] at hflag
    · by_cases hmod : rowCount % p.blockSize = 0
      · simp only [hb, hmod]
        rw [onCacheUpdated_virtualRowCount]
        simp only [Bool.not_false, Bool.true_and, beq_self_eq_true, if_pos]
        rw [Nat.add_mod, hmod, h1]
        simp [h1]
      · simp only [hb]
        rw [onCacheUpdated_virtualRowCount]
        simp [hmod]
  | some m =>
    cases m with
    | true =>
      rw [onCacheUpdated_maxRowFound] at hflag
      simp at hflag
    | false =>
      by_cases hmod : rowCount % p.blockSize = 0
      · simp only [hmod]
        rw [onCacheUpdated_virtualRowCount]
        simp only [Bool.not_false, Bool.true_and, beq_self_eq_true, if_pos]
        rw [Nat.add_mod, hmod, h1]
        simp [h1]
      · rw [onCacheUpdated_virtualRowCount]
        simp [hmod]

/-- C1 witness: an explicit override to 20 with `maxRowFound` cleared, at
block size 10, ends on 21 — not a multiple of the block size. -/
theorem setVirtualRowCount_boundary_avoidance_witness :
    2 ≤ pEx0.blockSize ∧
    (setVirtualRowCount pEx0 sEmpty1 20 (some false)).1.maxRowFound = false ∧
    (setVirtualRowCount pEx0 sEmpty1 20 (some false)).1.virtualRowCount % pEx0.blockSize ≠ 0 :=
  ⟨by decide, by decide,
    setVirtualRowCount_boundary_avoidance pEx0 sEmpty1 20 (some false) (by decide) (by decide)⟩

/-! ## C3: heuristic growth on load completion -/

/-- Closed form of the heuristic branch of `checkVirtualRowCount`. -/
theorem heuristic_characterization (p : CacheParams) (s : CacheState) (b : Blk) :
    checkVirtualRowCount.checkVirtualRowCountHeuristic p s b =
      if s.maxRowFound then s
      else { s with virtualRowCount := max s.virtualRowCount ((b.num + 1) * p.blockSize + p.overflowSize) } := by
  obtain ⟨v, m, a, bl, c⟩ := s
  unfold checkVirtualRowCount.checkVirtualRowCountHeuristic
  cases m with
  | true => simp
  | false =>
    by_cases hlt : v < (b.num + 1) * p.blockSize + p.overflowSize
    · simp [hlt, Nat.max_eq_right (Nat.le_of_lt hlt)]
    · simp [hlt, Nat.max_eq_left (Nat.le_of_not_lt hlt)]

/-- C3: on a load completion without an authoritative last row (absent or
negative), `checkVirtualRowCount` sets the count to the maximum of the old
count and `(blockNumber + 1) * blockSize + overflowSize` while
`maxRowFound` is false; it never decreases the count, and once
`maxRowFound` is true it changes nothing. -/
theorem checkVirtualRowCount_heuristic_growth (p : CacheParams) (s : CacheState)
    (b : Blk) (lastRow : Option Int) (hauth : authoritative lastRow = false) :
    (s.maxRowFound = false →
      (checkVirtualRowCount p s b lastRow).virtualRowCount =
        max s.virtualRowCount ((b.num + 1) * p.blockSize + p.overflowSize)) ∧
    s.virtualRowCount ≤ (checkVirtualRowCount p s b lastRow).virtualRowCount ∧
    (s.maxRowFound = true → checkVirtualRowCount p s b lastRow = s) := by
  have hred : checkVirtualRowCount p s b lastRow =
      checkVirtualRowCount.checkVirtualRowCountHeuristic p s b := by
    unfold authoritative at hauth
    cases lastRow with
    | none => rfl
    | some l =>
      simp only [checkVirtualRowCount]
      rw [if_neg (by simpa using hauth)]
  rw [hred, heuristic_characterization]
  obtain ⟨v, m, a, bl, c⟩ := s
  cases m with
  | true => simp
  | false =>
    refine ⟨fun _ => ?_, ?_, fun hc => absurd hc (by simp)⟩
    · simp
    · simp only [Bool.false_eq_true, if_false]
      exact le_max_left _ _

/-- C3 witness: block size 10, overflow 5: a successful load of block 0
without a last row raises the count from 1 to `max 1 15 = 15`. -/
theorem checkVirtualRowCount_heuristic_growth_witness :
    authoritative none = false ∧
    (checkVirtualRowCount pEx5 sEmpty1 (mkBlk 0 0 BlockState.loaded []) none).virtualRowCount
      = 15 := by
  refine ⟨by decide, ?_⟩
  have h := checkVirtualRowCount_heuristic_growth pEx5 sEmpty1
    (mkBlk 0 0 BlockState.loaded []) none (by decide)
  rw [h.1 (by decide)]
  decide

/-! ## C6: inactive caches ignore updates but still release the loader slot -/

/-- C6: while inactive, the cache-updated pass does nothing (no block
destruction, no event), and a load-completion notification leaves the cache
state untouched and dispatches nothing — yet `loadComplete()` is still
invoked, exactly as it is for any state. -/
theorem inactive_cache_ignores_updates (p : CacheParams) (s : CacheState)
    (ev : LoadEvent) (h : s.active = false) :
    onCacheUpdated p s = (s, false) ∧
    (onPageLoaded p s ev).state = s ∧
    (onPageLoaded p s ev).eventDispatched = false ∧
    (onPageLoaded p s ev).loadCompleteCalled = true ∧
    (∀ s' : CacheState, (onPageLoaded p s' ev).loadCompleteCalled = true) := by
  refine ⟨?_, ?_, ?_, ?_, ?_⟩
  · unfold onCacheUpdated
    rw [h]
    simp
  · unfold onPageLoaded
    rw [h]
    simp
  · unfold onPageLoaded
    rw [h]
    simp
  · unfold onPageLoaded
    rw [h]
    simp
  · intro s'
    unfold onPageLoaded
    by_cases ha : s'.active <;> by_cases hs : ev.success <;> simp [ha, hs]

/-- C6 witness: a concrete inactive cache with a pending successful load. -/
theorem inactive_cache_ignores_updates_witness :
    sInactive.active = false ∧
    (onPageLoaded pEx0 sInactive
      { page := mkBlk 0 0 BlockState.loaded [1, 2], lastRow := some 2, success := true }).state
      = sInactive ∧
    (onPageLoaded pEx0 sInactive
      { page := mkBlk 0 0 BlockState.loaded [1, 2], lastRow := some 2, success := true
        }).loadCompleteCalled = true := by
  have h := inactive_cache_ignores_updates pEx0 sInactive
    { page := mkBlk 0 0 BlockState.loaded [1, 2], lastRow := some 2, success := true }
    (by decide)
  exact ⟨by decide, h.2.1, h.2.2.2.1⟩

/-! ## C10: what purgeCache does to the count and the flag -/

/-- C10: `purgeCache` always resets `maxRowFound` to false; it keeps
`virtualRowCount` whenever it is nonzero and re-seeds it from
`initialRowCount` exactly when it is zero, with no boundary-alignment
adjustment in either case. -/
theorem purgeCache_count_and_flag (p : CacheParams) (s : CacheState) :
    (purgeCache p s).1.maxRowFound = false ∧
    (s.virtualRowCount ≠ 0 → (purgeCache p s).1.virtualRowCount = s.virtualRowCount) ∧
    (s.virtualRowCount = 0 → (purgeCache p s).1.virtualRowCount = p.initialRowCount) := by
  unfold purgeCache
  rw [foldl_destroyBlockOp]
  by_cases h0 : s.virtualRowCount = 0
  · refine ⟨?_, fun hc => absurd h0 hc, fun _ => ?_⟩
    · simp only [h0]
      rw [onCacheUpdated_maxRowFound]
      simp
    · simp only [h0]
      rw [onCacheUpdated_virtualRowCount]
      simp
  · refine ⟨?_, fun _ => ?_, fun hc => absurd hc h0⟩
    · simp only [h0]
      rw [onCacheUpdated_maxRowFound]
      have hbeq : (s.virtualRowCount == 0) = false := by
        simpa using h0
      simp [hbeq]
    · have hbeq : (s.virtualRowCount == 0) = false := by
        simpa using h0
      simp only [hbeq]
      rw [onCacheUpdated_virtualRowCount]
      simp

/-- C10 witness: purging with a nonzero count (30, `maxRowFound` set) keeps
30 and clears the flag; purging with a zero count re-seeds from
`initialRowCount`. -/
theorem purgeCache_count_and_flag_witness :
    (purgeCache pEx0 sFound30).1.maxRowFound = false ∧
    (purgeCache pEx0 sFound30).1.virtualRowCount = 30 ∧
    (purgeCache pEx0 sZero).1.virtualRowCount = pEx0.initialRowCount :=
  ⟨(purgeCache_count_and_flag pEx0 sFound30).1,
    (purgeCache_count_and_flag pEx0 sFound30).2.1 (by decide),
    (purgeCache_count_and_flag pEx0 sZero).2.2 (by decide)⟩

/-! ## C7: blockCount versus the number of registered keys -/

theorem filter_out_key_length {l : List (Nat × Blk)}
    (hn : (l.map (fun q => q.1)).Nodup) {k : Nat}
    (hk : l.any (fun q => q.1 == k) = true) :
    (l.filter (fun q => !(q.1 == k))).length + 1 = l.length := by
  induction l with
  | nil => simp at hk
  | cons p t ih =>
    rw [List.map_cons, List.nodup_cons] at hn
    rw [List.filter_cons]
    by_cases hp : p.1 = k
    · have hb : (p.1 == k) = true := by simpa using hp
      rw [hb]
      have hall : t.filter (fun q => !(q.1 == k)) = t := by
        apply List.filter_eq_self.mpr
        intro a ha
        have hak : a.1 ≠ k := by
          intro he
          apply hn.1
          rw [hp, ← he]
          exact List.mem_map_of_mem (fun q => q.1) ha
        simpa using hak
      simp [hall]
    · have hb : (p.1 == k) = false := by simpa using hp
      rw [hb]
      have hkt : t.any (fun q => q.1 == k) = true := by
        rw [List.any_cons, hb] at hk
        simpa using hk
      have hrec := ih hn.2 hkt
      simp only [Bool.not_false, List.length_cons]
      simp
      omega

/-- C7, counterexample: inserting twice under key 0 leaves one key but a
`blockCount` of 2 — the counter does not match the number of keys when a
block number is reused. -/
theorem blockCount_counterexample :
    (applyOps sEmpty1
        [CacheOp.set 0 (mkBlk 0 0 BlockState.loaded []),
         CacheOp.set 0 (mkBlk 0 1 BlockState.loaded [])]).blockCount = 2 ∧
    (applyOps sEmpty1
        [CacheOp.set 0 (mkBlk 0 0 BlockState.loaded []),
         CacheOp.set 0 (mkBlk 0 1 BlockState.loaded [])]).blocks.length = 1 := by
  decide

/-- C7 (amended): for every sequence of insertions and removals in which
each `setBlock` uses a block number not currently registered and each
`destroyBlock` targets a registered block number, `blockCount` equals the
number of keys in the registry (which stays duplicate-free).  Reusing a live
key desynchronizes the counter. -/
theorem blockCount_matches_keys (ops : List CacheOp) : ∀ s : CacheState,
    nodupKeys s → s.blockCount = (s.blocks.length : Int) → legalOps s ops = true →
    (applyOps s ops).blockCount = ((applyOps s ops).blocks.length : Int) ∧
      nodupKeys (applyOps s ops) := by
  induction ops with
  | nil =>
    intro s hn hc _
    exact ⟨hc, hn⟩
  | cons op rest ih =>
    intro s hn hc hl
    cases op with
    | set id b =>
      unfold legalOps at hl
      rw [Bool.and_eq_true] at hl
      have hfresh : hasKey s id = false := by
        have h1 := hl.1
        cases h : hasKey s id
        · rfl
        · rw [h] at h1; simp at h1
      have hset : setBlockMap s.blocks id b = s.blocks ++ [(id, b)] :=
        setBlockMap_fresh b hfresh
      refine ih (setBlockOp s id b) ?_ ?_ hl.2
      · unfold nodupKeys setBlockOp
        rw [hset, List.map_append]
        rw [List.nodup_append]
        refine ⟨hn, by simp, ?_⟩
        intro a ha hmem
        have hid : a = id := by simpa using hmem
        unfold hasKey at hfresh
        rcases List.mem_map.mp ha with ⟨q, hq, hfst⟩
        have := List.any_eq_false.mp hfresh q hq
        apply this
        rw [hfst, hid]
        simp
      · unfold setBlockOp
        rw [hset]
        simp only [List.length_append, List.length_cons, List.length_nil]
        rw [hc]
        push_cast
        omega
    | destroy b =>
      unfold legalOps at hl
      rw [Bool.and_eq_true] at hl
      have hkey : hasKey s b.num = true := hl.1
      have hlen := filter_out_key_length hn hkey
      refine ih (destroyBlockOp s b) ?_ ?_ hl.2
      · unfold nodupKeys destroyBlockOp
        have hsub : ((s.blocks.filter (fun q => !(q.1 == b.num))).map
            (fun q => q.1)).Sublist (s.blocks.map (fun q => q.1)) :=
          List.Sublist.map (fun q => q.1) (List.filter_sublist s.blocks)
        exact List.Nodup.sublist hsub hn
      · unfold destroyBlockOp
        rw [hc]
        push_cast
        omega

/-- C7 witness: a legal insert-insert-destroy sequence keeps the counter in
step with the key count. -/
theorem blockCount_matches_keys_witness :
    legalOps sEmpty1
      [CacheOp.set 0 (mkBlk 0 0 BlockState.loaded []),
       CacheOp.set 1 (mkBlk 1 1 BlockState.loaded []),
       CacheOp.destroy (mkBlk 0 0 BlockState.loaded [])] = true ∧
    (applyOps sEmpty1
      [CacheOp.set 0 (mkBlk 0 0 BlockState.loaded []),
       CacheOp.set 1 (mkBlk 1 1 BlockState.loaded []),
       CacheOp.destroy (mkBlk 0 0 BlockState.loaded [])]).blockCount =
      ((applyOps sEmpty1
        [CacheOp.set 0 (mkBlk 0 0 BlockState.loaded []),
         CacheOp.set 1 (mkBlk 1 1 BlockState.loaded []),
         CacheOp.destroy (mkBlk 0 0 BlockState.loaded [])]).blocks.length : Int) :=
  ⟨by decide,
    (blockCount_matches_keys
      [CacheOp.set 0 (mkBlk 0 0 BlockState.loaded []),
       CacheOp.set 1 (mkBlk 1 1 BlockState.loaded []),
       CacheOp.destroy (mkBlk 0 0 BlockState.loaded [])]
      sEmpty1 (by decide) (by decide) (by decide)).1⟩

/-! ## C8: the update pass destroys exactly the blocks past the count -/

theorem onCacheUpdated_blocks (p : CacheParams) (s : CacheState)
    (hn : nodupKeys s) (hc : coherent s) (ha : s.active = true) :
    (onCacheUpdated p s).1.blocks =
      s.blocks.filter (fun q => decide (q.1 * p.blockSize < s.virtualRowCount)) := by
  unfold onCacheUpdated
  rw [ha]
  simp only [if_true]
  unfold destroyAllBlocksPastVirtualRowCount
  rw [foldl_destroyBlockOp]
  apply List.filter_congr
  intro q hq
  by_cases hpast : s.virtualRowCount ≤ q.1 * p.blockSize
  · have hout : (decide (q.1 * p.blockSize < s.virtualRowCount)) = false := by
      simp
      omega
    rw [hout]
    apply List.all_eq_false.mpr
    have hqf : q ∈ (entriesInOrder s).filter
        (fun q => decide (s.virtualRowCount ≤ q.1 * p.blockSize)) :=
      List.mem_filter.mpr ⟨mem_entriesInOrder_of_mem hn hq, by simpa using hpast⟩
    refine ⟨q.2, List.mem_map_of_mem (fun q => q.2) hqf, ?_⟩
    rw [hc q hq]
    simp
  · have hin : (decide (q.1 * p.blockSize < s.virtualRowCount)) = true := by
      simp
      omega
    rw [hin]
    apply List.all_eq_true.mpr
    intro x hx
    rcases List.mem_map.mp hx with ⟨q', hq', hxval⟩
    have hq'mem := List.mem_filter.mp hq'
    have hq'blocks := mem_blocks_of_mem_entriesInOrder hq'mem.1
    have hq'past : s.virtualRowCount ≤ q'.1 * p.blockSize := by
      have := hq'mem.2
      simpa using this
    have hnum : x.num = q'.1 := by
      rw [← hxval]
      exact hc q' hq'blocks
    have hne : q.1 ≠ x.num := by
      intro he
      have : q = q' := by
        apply eq_of_mem_of_fst_eq hn hq hq'blocks
        rw [he, hnum]
      rw [this] at hpast
      exact hpast hq'past
    simpa using hne

theorem onCacheUpdated_blocks_update (p : CacheParams) (s : CacheState) (v : Nat) (m : Bool)
    (hn : nodupKeys s) (hc : coherent s) (ha : s.active = true) :
    (onCacheUpdated p { s with virtualRowCount := v, maxRowFound := m }).1.blocks =
      s.blocks.filter (fun q => decide (q.1 * p.blockSize < v)) :=
  onCacheUpdated_blocks p { s with virtualRowCount := v, maxRowFound := m } hn hc ha

/-- C8: while the cache is active, the cache-updated pass keeps exactly the
blocks whose start row `blockNumber * blockSize` is below the current
`virtualRowCount` and destroys every block whose start row is at or past
it; in particular `setVirtualRowCount` leaves exactly the blocks below the
newly applied count. -/
theorem shrink_destroys_past_blocks (p : CacheParams) (s : CacheState)
    (hn : nodupKeys s) (hc : coherent s) (ha : s.active = true) :
    (onCacheUpdated p s).1.blocks =
      s.blocks.filter (fun q => decide (q.1 * p.blockSize < s.virtualRowCount)) ∧
    ∀ (rowCount : Nat) (mrf : Option Bool),
      (setVirtualRowCount p s rowCount mrf).1.blocks =
        s.blocks.filter (fun q => decide (q.1 * p.blockSize <
          (setVirtualRowCount p s rowCount mrf).1.virtualRowCount)) := by
  refine ⟨onCacheUpdated_blocks p s hn hc ha, ?_⟩
  intro rowCount mrf
  unfold setVirtualRowCount
  cases mrf with
  | none =>
    by_cases hcond : (!s.maxRowFound && rowCount % p.blockSize == 0) = true
    · simp only [hcond, if_true, if_pos]
      rw [onCacheUpdated_blocks_update p s (rowCount + 1) s.maxRowFound hn hc ha,
        onCacheUpdated_virtualRowCount]
    · simp only [hcond, if_neg, Bool.false_eq_true, if_false]
      rw [onCacheUpdated_blocks_update p s rowCount s.maxRowFound hn hc ha,
        onCacheUpdated_virtualRowCount]
  | some m =>
    by_cases hcond : (!m && rowCount % p.blockSize == 0) = true
    · simp only [hcond, if_true, if_pos]
      rw [onCacheUpdated_blocks_update p s (rowCount + 1) m hn hc ha,
        onCacheUpdated_virtualRowCount]
    · simp only [hcond, if_neg, Bool.false_eq_true, if_false]
      rw [onCacheUpdated_blocks_update p s rowCount m hn hc ha,
        onCacheUpdated_virtualRowCount]

/-- C8 witness: with block size 10 and a count of 15, the pass destroys
block 2 (start row 20) and keeps block 0. -/
theorem shrink_destroys_past_blocks_witness :
    sShrink.active = true ∧
    (onCacheUpdated pEx0 sShrink).1.blocks =
      sShrink.blocks.filter
        (fun q => decide (q.1 * pEx0.blockSize < sShrink.virtualRowCount)) :=
  ⟨by decide,
    (shrink_destroys_past_blocks pEx0 sShrink (by decide) (by decide) (by decide)).1⟩

/-! ## Eviction-pass lemmas -/

theorem countP_or_le (p q : α → Bool) (l : List α) :
    l.countP (fun a => p a || q a) ≤ l.countP p + l.countP q := by
  induction l with
  | nil => simp
  | cons x t ih =>
    rw [List.countP_cons, List.countP_cons, List.countP_cons]
    cases hp : p x <;> cases hq : q x <;> simp [hp, hq] <;> omega

theorem countP_key_le_one {l : List (Nat × Blk)}
    (hn : (l.map (fun q => q.1)).Nodup) (k : Nat) :
    l.countP (fun q => q.1 == k) ≤ 1 := by
  have h1 : l.countP (fun q => q.1 == k) =
      (l.map (fun q => q.1)).countP (fun x => x == k) := by
    rw [List.countP_map]
    rfl
  rw [h1, ← List.count_eq_countP]
  exact List.nodup_iff_count_le_one.mp hn k

theorem mem_purgeSorted_iff {s : CacheState} {excludeId : Nat} {b : Blk} :
    b ∈ purgeSorted s excludeId ↔ b ∈ purgeCandidates s excludeId :=
  (insort_perm (fun a b => decide (b.lastAccessed ≤ a.lastAccessed))
    (purgeCandidates s excludeId)).mem_iff

theorem mem_purgeCandidates_elim {s : CacheState} {excludeId : Nat} {b : Blk}
    (h : b ∈ purgeCandidates s excludeId) :
    ∃ q ∈ s.blocks, q.2 = b ∧ q.1 ≠ excludeId := by
  unfold purgeCandidates at h
  rcases List.mem_map.mp h with ⟨q, hq, hval⟩
  have hfil := List.mem_filter.mp hq
  refine ⟨q, mem_blocks_of_mem_entriesInOrder hfil.1, hval, ?_⟩
  have := hfil.2
  simpa using this

theorem mem_purgeCandidates_intro {s : CacheState} (hn : nodupKeys s)
    {excludeId : Nat} {q : Nat × Blk} (hq : q ∈ s.blocks) (hne : q.1 ≠ excludeId) :
    q.2 ∈ purgeCandidates s excludeId := by
  unfold purgeCandidates
  have hmemf : q ∈ (entriesInOrder s).filter (fun q => !(q.1 == excludeId)) :=
    List.mem_filter.mpr ⟨mem_entriesInOrder_of_mem hn hq, by simpa using hne⟩
  exact List.mem_map_of_mem (fun q => q.2) hmemf

theorem purgeCandidates_num_nodup {s : CacheState} (hn : nodupKeys s)
    (hc : coherent s) (excludeId : Nat) :
    ((purgeCandidates s excludeId).map (fun b => b.num)).Nodup := by
  unfold purgeCandidates
  rw [List.map_map]
  have hcong : ((entriesInOrder s).filter (fun q => !(q.1 == excludeId))).map
        ((fun b => b.num) ∘ (fun q => q.2)) =
      ((entriesInOrder s).filter (fun q => !(q.1 == excludeId))).map (fun q => q.1) := by
    apply List.map_congr_left
    intro a ha
    have hmem := (List.mem_filter.mp ha).1
    exact hc a (mem_blocks_of_mem_entriesInOrder hmem)
  rw [hcong]
  have hsub : (((entriesInOrder s).filter (fun q => !(q.1 == excludeId))).map
      (fun q => q.1)).Sublist ((entriesInOrder s).map (fun q => q.1)) :=
    List.Sublist.map (fun q => q.1) (List.filter_sublist (entriesInOrder s))
  exact List.Nodup.sublist hsub (entriesInOrder_fst_nodup hn)

theorem purgeSorted_nodup {s : CacheState} (hn : nodupKeys s) (hc : coherent s)
    (excludeId : Nat) : (purgeSorted s excludeId).Nodup := by
  have hperm : ((purgeSorted s excludeId).map (fun b => b.num)).Perm
      ((purgeCandidates s excludeId).map (fun b => b.num)) :=
    List.Perm.map (fun b => b.num)
      (insort_perm (fun a b => decide (b.lastAccessed ≤ a.lastAccessed))
        (purgeCandidates s excludeId))
  have hnodup : ((purgeSorted s excludeId).map (fun b => b.num)).Nodup :=
    (hperm.nodup_iff).mpr (purgeCandidates_num_nodup hn hc excludeId)
  exact List.Nodup.of_map (fun b => b.num) hnodup

theorem shouldPurge_guards {p : CacheParams} {vf vl : Int} {i : Nat} {b : Blk}
    (h : shouldPurge p vf vl i b = true) :
    b.anyOpen = false ∧ isBlockCurrentlyDisplayed vf vl b = false := by
  unfold shouldPurge at h
  rw [Bool.and_eq_true, Bool.and_eq_true] at h
  refine ⟨?_, ?_⟩
  · have := h.1.2
    simpa using this
  · have := h.2
    simpa using this

theorem mem_blocksToPurge_elim {p : CacheParams} {vf vl : Int} {s : CacheState}
    {excludeId : Nat} {x : Blk} (hx : x ∈ blocksToPurge p vf vl s excludeId) :
    x.anyOpen = false ∧ isBlockCurrentlyDisplayed vf vl x = false ∧
      ∃ q ∈ s.blocks, q.2 = x ∧ q.1 ≠ excludeId := by
  unfold blocksToPurge at hx
  rcases List.mem_map.mp hx with ⟨ix, hmem, hval⟩
  have hfil := List.mem_filter.mp hmem
  have hshould : shouldPurge p vf vl ix.1 ix.2 = true := hfil.2
  have hguards := shouldPurge_guards hshould
  have hsorted : ix.2 ∈ purgeSorted s excludeId := by
    obtain ⟨i, x'⟩ := ix
    have hme := List.mem_enum hfil.1
    rw [hme.2]
    exact List.getElem_mem hme.1
  rw [hval] at hguards hsorted
  exact ⟨hguards.1, hguards.2,
    mem_purgeCandidates_elim (mem_purgeSorted_iff.mp hsorted)⟩

/-! ## C2: open or displayed blocks are never evicted -/

/-- C2: an eviction pass never removes a block that reports an open
descendant (relative to the current virtual row count) or whose
display-index range overlaps the reported viewport, for any cap, any
recency stamps and any load states. -/
theorem open_or_displayed_never_evicted (p : CacheParams) (vf vl : Int)
    (s : CacheState) (excludeId : Nat) (id : Nat) (b : Blk)
    (hn : nodupKeys s) (hc : coherent s) (hq : (id, b) ∈ s.blocks)
    (hguard : b.anyOpen = true ∨ isBlockCurrentlyDisplayed vf vl b = true) :
    (id, b) ∈ (purgeBlocksIfNeeded p vf vl s excludeId).blocks := by
  unfold purgeBlocksIfNeeded
  rw [foldl_destroyBlockOp]
  apply List.mem_filter.mpr
  refine ⟨hq, ?_⟩
  apply List.all_eq_true.mpr
  intro x hx
  rcases mem_blocksToPurge_elim hx with ⟨hopen, hdisp, q', hq', hval, _⟩
  have hnum : x.num = q'.1 := by
    rw [← hval]
    exact hc q' hq'
  have hne : id ≠ x.num := by
    intro he
    have hqeq : (id, b) = q' := by
      apply eq_of_mem_of_fst_eq hn hq hq'
      rw [hnum] at he
      exact he
    have hbx : b = x := by
      have := congrArg (fun q => q.2) hqeq
      simp at this
      rw [this, hval]
    rcases hguard with hg | hg
    · rw [hbx] at hg
      rw [hg] at hopen
      cases hopen
    · rw [hbx] at hg
      rw [hg] at hdisp
      cases hdisp
  simpa using hne

/-- C2 witness: with a one-block cap and block 1 freshly inserted, the open
block 0 is the sole candidate, over capacity — yet it stays. -/
theorem open_or_displayed_never_evicted_witness :
    bOpen0.anyOpen = true ∧
    (0, bOpen0) ∈ (purgeBlocksIfNeeded pCap1 1000 2000 sOpen 1).blocks :=
  ⟨by decide,
    open_or_displayed_never_evicted pCap1 1000 2000 sOpen 1 0 bOpen0
      (by decide) (by decide) (by decide) (Or.inl (by decide))⟩

/-! ## C4: behaviour of the capacity cap -/

/-- C4, counterexample: cap 3, new block 2 excluded; the sorted candidates
are block 0 (position 0) and the dirty block 1 (position 1).  Block 1 is
within the two (= N-1) most recently accessed candidates and no guard
protects anything, yet the pass evicts it — the empty-block budget fires at
sorted position 1.  The pass does not keep the N-1 most recent candidates. -/
theorem capped_eviction_counterexample :
    pCap3.maxBlocksInCache = 3 ∧
    (purgeSorted sCap 2)[1]? = some bDirty1 ∧
    ((1 : Int) < pCap3.maxBlocksInCache - 1) ∧
    bDirty1.anyOpen = false ∧
    isBlockCurrentlyDisplayed 1000 2000 bDirty1 = false ∧
    (purgeBlocksIfNeeded pCap3 1000 2000 sCap 2).blocks.find?
      (fun q => q.1 == 1) = none := by
  decide

theorem mem_blocksToPurge_intro {p : CacheParams} {vf vl : Int} {s : CacheState}
    {excludeId : Nat} {i : Nat} {b : Blk}
    (henum : (i, b) ∈ (purgeSorted s excludeId).enum)
    (hs : shouldPurge p vf vl i b = true) :
    b ∈ blocksToPurge p vf vl s excludeId := by
  unfold blocksToPurge
  apply List.mem_map.mpr
  exact ⟨(i, b), List.mem_filter.mpr ⟨henum, by exact hs⟩, rfl⟩

theorem value_eq_of_num_eq {s : CacheState} (hn : nodupKeys s) (hc : coherent s)
    {q q' : Nat × Blk} (hq : q ∈ s.blocks) (hq' : q' ∈ s.blocks)
    (h : q.2.num = q'.2.num) : q = q' := by
  apply eq_of_mem_of_fst_eq hn hq hq'
  rw [← hc q hq, ← hc q' hq']
  exact h

theorem shouldPurge_of_capacity {p : CacheParams} {vf vl : Int} {i : Nat} {b : Blk}
    (hcap : 0 < p.maxBlocksInCache) (hge : p.maxBlocksInCache - 1 ≤ (i : Int))
    (hopen : b.anyOpen = false) (hdisp : isBlockCurrentlyDisplayed vf vl b = false) :
    shouldPurge p vf vl i b = true := by
  unfold shouldPurge
  simp [hopen, hdisp, hcap, hge]

theorem shouldPurge_false_of_within {p : CacheParams} {vf vl : Int} {i : Nat} {b : Blk}
    (hlt : (i : Int) < p.maxBlocksInCache - 1)
    (hnd : ¬(b.state = BlockState.dirty ∧ 1 ≤ i)) :
    shouldPurge p vf vl i b = false := by
  unfold shouldPurge
  have hfull : (decide (p.maxBlocksInCache - 1 ≤ (i : Int))) = false := by
    simp
    omega
  have hempty : (b.state == BlockState.dirty &&
      decide (MAX_EMPTY_BLOCKS_TO_KEEP - 1 ≤ i)) = false := by
    by_cases hd : b.state = BlockState.dirty
    · have h1 : ¬ 1 ≤ i := fun hone => hnd ⟨hd, hone⟩
      simp [MAX_EMPTY_BLOCKS_TO_KEEP]
      intro _
      omega
    · have h2 : (b.state == BlockState.dirty) = false := by simpa using hd
      simp [h2]
  have hfull2 : (decide (0 < p.maxBlocksInCache) &&
      decide (p.maxBlocksInCache - 1 ≤ (i : Int))) = false := by
    rw [hfull]
    simp
  simp only [hempty, hfull2, Bool.false_or, Bool.false_and]

/-- C4 (amended): with a cap `N = maxBlocksInCache > 0` and no block
protected by the open-descendant or viewport guards, an eviction pass
leaves at most `N` live blocks, and it evicts every candidate at sorted
recency position at or past `N - 1`.  A candidate at a position below
`N - 1` is kept only if it is not also claimed by the empty-block budget:
a DIRTY candidate at sorted position 1 or later is evicted even when it is
among the `N - 1` most recently accessed. -/
theorem capped_eviction_bound (p : CacheParams) (vf vl : Int) (s : CacheState)
    (excludeId : Nat) (hn : nodupKeys s) (hc : coherent s)
    (hcap : 0 < p.maxBlocksInCache)
    (hexempt : ∀ q ∈ s.blocks,
      q.2.anyOpen = false ∧ isBlockCurrentlyDisplayed vf vl q.2 = false) :
    ((purgeBlocksIfNeeded p vf vl s excludeId).blocks.length : Int) ≤
        p.maxBlocksInCache ∧
    (∀ (i : Nat) (b : Blk), (purgeSorted s excludeId)[i]? = some b →
        p.maxBlocksInCache - 1 ≤ (i : Int) →
        ∀ id : Nat, (id, b) ∉ (purgeBlocksIfNeeded p vf vl s excludeId).blocks) ∧
    (∀ (i : Nat) (b : Blk), (purgeSorted s excludeId)[i]? = some b →
        (i : Int) < p.maxBlocksInCache - 1 →
        ¬(b.state = BlockState.dirty ∧ 1 ≤ i) →
        (b.num, b) ∈ (purgeBlocksIfNeeded p vf vl s excludeId).blocks) := by
  have hres : (purgeBlocksIfNeeded p vf vl s excludeId).blocks =
      s.blocks.filter
        (fun q => (blocksToPurge p vf vl s excludeId).all (fun x => !(q.1 == x.num))) := by
    unfold purgeBlocksIfNeeded
    rw [foldl_destroyBlockOp]
  have hguards : ∀ b ∈ purgeSorted s excludeId,
      b.anyOpen = false ∧ isBlockCurrentlyDisplayed vf vl b = false := by
    intro b hb
    rcases mem_purgeCandidates_elim (mem_purgeSorted_iff.mp hb) with ⟨q', hq', hval, _⟩
    have := hexempt q' hq'
    rw [hval] at this
    exact this
  refine ⟨?_, ?_, ?_⟩
  · -- live block count at most the cap
    rw [hres]
    rw [← List.countP_eq_length_filter]
    have hmono : s.blocks.countP
          (fun q => (blocksToPurge p vf vl s excludeId).all (fun x => !(q.1 == x.num))) ≤
        s.blocks.countP (fun q => (q.1 == excludeId) ||
          ((blocksToPurge p vf vl s excludeId).all (fun x => !(q.1 == x.num)) &&
            !(q.1 == excludeId))) := by
      apply List.countP_mono_left
      intro q _ hKq
      cases hte : (q.1 == excludeId) <;> simp [hte, hKq]
    have hsplit := countP_or_le (fun q : Nat × Blk => q.1 == excludeId)
      (fun q : Nat × Blk =>
        (blocksToPurge p vf vl s excludeId).all (fun x => !(q.1 == x.num)) &&
          !(q.1 == excludeId)) s.blocks
    have hB : s.blocks.countP (fun q => q.1 == excludeId) ≤ 1 := countP_key_le_one hn excludeId
    have hA : s.blocks.countP
        (fun q => (blocksToPurge p vf vl s excludeId).all (fun x => !(q.1 == x.num)) &&
          !(q.1 == excludeId)) ≤ (p.maxBlocksInCache - 1).toNat := by
      rw [List.countP_eq_length_filter]
      have hsubset : ((s.blocks.filter
            (fun q => (blocksToPurge p vf vl s excludeId).all (fun x => !(q.1 == x.num)) &&
              !(q.1 == excludeId))).map (fun q => q.2)) ⊆
          (((purgeSorted s excludeId).enum.filter
            (fun q => !(shouldPurge p vf vl q.1 q.2))).map (fun q => q.2)) := by
        intro x hx
        rcases List.mem_map.mp hx with ⟨q, hqA, hqval⟩
        have hqf := List.mem_filter.mp hqA
        obtain ⟨hqb, hqp⟩ := hqf
        rw [Bool.and_eq_true] at hqp
        have hqne : q.1 ≠ excludeId := by simpa using hqp.2
        have hsorted : q.2 ∈ purgeSorted s excludeId :=
          mem_purgeSorted_iff.mpr (mem_purgeCandidates_intro hn hqb hqne)
        rcases exists_enum_of_mem hsorted with ⟨i, _, hienum⟩
        have hsf : shouldPurge p vf vl i q.2 = false := by
          cases hcase : shouldPurge p vf vl i q.2
          · rfl
          · exfalso
            have hto : q.2 ∈ blocksToPurge p vf vl s excludeId :=
              mem_blocksToPurge_intro hienum hcase
            have hall := List.all_eq_true.mp hqp.1 q.2 hto
            rw [hc q hqb] at hall
            simp at hall
        apply List.mem_map.mpr
        refine ⟨(i, q.2), List.mem_filter.mpr ⟨hienum, by rw [hsf]; rfl⟩, ?_⟩
        rw [← hqval]
      have hAnodup : ((s.blocks.filter
            (fun q => (blocksToPurge p vf vl s excludeId).all (fun x => !(q.1 == x.num)) &&
              !(q.1 == excludeId))).map (fun q => q.2)).Nodup := by
        have h1 : (((s.blocks.filter
              (fun q => (blocksToPurge p vf vl s excludeId).all (fun x => !(q.1 == x.num)) &&
                !(q.1 == excludeId))).map (fun q => q.2)).map (fun b => b.num)) =
            ((s.blocks.filter
              (fun q => (blocksToPurge p vf vl s excludeId).all (fun x => !(q.1 == x.num)) &&
                !(q.1 == excludeId))).map (fun q => q.1)) := by
          rw [List.map_map]
          apply List.map_congr_left
          intro a ha
          exact hc a ((List.mem_filter.mp ha).1)
        have h2 : ((s.blocks.filter
              (fun q => (blocksToPurge p vf vl s excludeId).all (fun x => !(q.1 == x.num)) &&
                !(q.1 == excludeId))).map (fun q => q.1)).Nodup :=
          List.Nodup.sublist
            (List.Sublist.map (fun q => q.1) (List.filter_sublist s.blocks)) hn
        rw [← h1] at h2
        exact List.Nodup.of_map (fun b => b.num) h2
      have hAle := (List.Nodup.subperm hAnodup hsubset).length_le
      rw [List.length_map] at hAle
      have hKCle : (((purgeSorted s excludeId).enum.filter
          (fun q => !(shouldPurge p vf vl q.1 q.2))).map (fun q => q.2)).length ≤
          (p.maxBlocksInCache - 1).toNat := by
        rw [List.length_map, ← List.countP_eq_length_filter]
        have hmono2 : ((purgeSorted s excludeId).enum).countP
              (fun q => !(shouldPurge p vf vl q.1 q.2)) ≤
            ((purgeSorted s excludeId).enum).countP
              (fun q => decide (q.1 < (p.maxBlocksInCache - 1).toNat)) := by
          apply List.countP_mono_left
          intro q hqenum hns
          obtain ⟨i, x⟩ := q
          have hxsorted : x ∈ purgeSorted s excludeId := by
            have hme := List.mem_enum hqenum
            rw [hme.2]
            exact List.getElem_mem hme.1
          have hg := hguards x hxsorted
          have hsfalse : shouldPurge p vf vl i x = false := by
            have := hns
            simpa using this
          unfold shouldPurge at hsfalse
          simp only [hg.1, hg.2, Bool.not_false, Bool.and_true] at hsfalse
          rw [Bool.or_eq_false_iff] at hsfalse
          have hfull := hsfalse.2
          rw [Bool.and_eq_false_iff] at hfull
          rcases hfull with hf | hf
          · exfalso
            have : (decide (0 < p.maxBlocksInCache)) = true := by simpa using hcap
            rw [this] at hf
            cases hf
          · have hilt : ¬ (p.maxBlocksInCache - 1 ≤ (i : Int)) := by simpa using hf
            simp
            omega
        have hlast : ((purgeSorted s excludeId).enum).countP
            (fun q => decide (q.1 < (p.maxBlocksInCache - 1).toNat)) ≤
            (p.maxBlocksInCache - 1).toNat := by
          rw [List.countP_eq_length_filter]
          have := enumFrom_filter_lt_length_le (p.maxBlocksInCache - 1).toNat
            (purgeSorted s excludeId) 0
          simpa using this
        omega
      omega
    have hcast : ((p.maxBlocksInCache - 1).toNat : Int) = p.maxBlocksInCache - 1 := by
      omega
    omega
  · -- every candidate at sorted position ≥ N-1 is evicted
    intro i b hget hge id hmem
    have henum : (i, b) ∈ (purgeSorted s excludeId).enum := mem_enum_of_getElem? hget
    have hbsorted : b ∈ purgeSorted s excludeId := List.mem_iff_getElem?.mpr ⟨i, hget⟩
    have hg := hguards b hbsorted
    have hshould := shouldPurge_of_capacity hcap hge hg.1 hg.2
    have hbto := mem_blocksToPurge_intro henum hshould
    rw [hres] at hmem
    have hmf := List.mem_filter.mp hmem
    have hall := List.all_eq_true.mp hmf.2 b hbto
    have hidnum : b.num = id := hc (id, b) hmf.1
    rw [hidnum] at hall
    simp at hall
  · -- a candidate below N-1 not claimed by the empty budget is kept
    intro i b hget hlt hnd
    have hbsorted : b ∈ purgeSorted s excludeId := List.mem_iff_getElem?.mpr ⟨i, hget⟩
    rcases mem_purgeCandidates_elim (mem_purgeSorted_iff.mp hbsorted) with ⟨q', hq', hval, _⟩
    have hq'eq : q' = (b.num, b) := by
      obtain ⟨qa, qb⟩ := q'
      have h1 : qb = b := hval
      have h2 : qb.num = qa := hc (qa, qb) hq'
      rw [h1] at h2
      rw [h1, ← h2]
    rw [hq'eq] at hq'
    rw [hres]
    apply List.mem_filter.mpr
    refine ⟨hq', ?_⟩
    apply List.all_eq_true.mpr
    intro x hx
    cases hcase : (b.num == x.num)
    · simp [hcase]
    · exfalso
      have hxnum : x.num = b.num := by
        have := hcase
        simp at this
        exact this.symm
      rcases mem_blocksToPurge_elim hx with ⟨_, _, qx, hqx, hqxval, _⟩
      have hqxeq : qx = (b.num, b) := by
        apply value_eq_of_num_eq hn hc hqx hq'
        rw [hqxval]
        exact hxnum
      have hxb : x = b := by
        have := congrArg (fun q : Nat × Blk => q.2) hqxeq
        simp at this
        rw [← hqxval, this]
      -- locate b in the purge list and contradict shouldPurge
      rw [hxb] at hx
      unfold blocksToPurge at hx
      rcases List.mem_map.mp hx with ⟨⟨j, x'⟩, hjm, hjval⟩
      have hjf := List.mem_filter.mp hjm
      have hje := List.mem_enum hjf.1
      have hjlen : j < (purgeSorted s excludeId).length := hje.1
      rcases List.getElem?_eq_some.mp hget with ⟨hilen, hgeteq⟩
      have hx'b : x' = b := hjval
      have hij : i = j := by
        apply (List.Nodup.getElem_inj_iff (purgeSorted_nodup hn hc excludeId)).mp
        rw [hgeteq]
        rw [← hx'b]
        exact hje.2
      have hsf : shouldPurge p vf vl i b = false := shouldPurge_false_of_within hlt hnd
      have hstrue : shouldPurge p vf vl j x' = true := hjf.2
      rw [hx'b, ← hij] at hstrue
      rw [hsf] at hstrue
      cases hstrue

/-- C4 witness: cap 3, three blocks, none protected: the pass leaves at
most 3 live blocks. -/
theorem capped_eviction_bound_witness :
    0 < pCap3.maxBlocksInCache ∧
    ((purgeBlocksIfNeeded pCap3 1000 2000 sCap 2).blocks.length : Int) ≤
      pCap3.maxBlocksInCache :=
  ⟨by decide,
    (capped_eviction_bound pCap3 1000 2000 sCap 2 (by decide) (by decide)
      (by decide) (by decide)).1⟩

/-! ## Range-traversal lemmas -/

theorem rowAct_append (f l : Option Nat) (xs ys : List Nat) : ∀ act : Bool,
    rowAct f l act (xs ++ ys) = rowAct f l (rowAct f l act xs) ys := by
  induction xs with
  | nil => intro act; rfl
  | cons r rs ih =>
    intro act
    rw [List.cons_append]
    simp only [rowAct]
    exact ih _

theorem rowSeg_append (f l : Option Nat) (xs ys : List Nat) : ∀ act : Bool,
    rowSeg f l act (xs ++ ys) =
      rowSeg f l act xs ++ rowSeg f l (rowAct f l act xs) ys := by
  induction xs with
  | nil => intro act; rfl
  | cons r rs ih =>
    intro act
    rw [List.cons_append]
    simp only [rowSeg, rowAct]
    rw [ih]
    rw [List.append_assoc]

theorem rowSeg_noHit (f l : Option Nat) (rs : List Nat)
    (h : ∀ r ∈ rs, hitAnchor f l r = false) : ∀ act : Bool,
    rowSeg f l act rs = if act then rs else [] := by
  induction rs with
  | nil => intro act; cases act <;> rfl
  | cons r rs ih =>
    intro act
    have hr : hitAnchor f l r = false := h r (List.mem_cons_self r rs)
    have hrest : ∀ x ∈ rs, hitAnchor f l x = false :=
      fun x hx => h x (List.mem_cons_of_mem r hx)
    simp only [rowSeg]
    rw [hr, ih hrest]
    cases act <;> simp

theorem rowAct_noHit (f l : Option Nat) (rs : List Nat)
    (h : ∀ r ∈ rs, hitAnchor f l r = false) : ∀ act : Bool,
    rowAct f l act rs = act := by
  induction rs with
  | nil => intro act; rfl
  | cons r rs ih =>
    intro act
    have hr : hitAnchor f l r = false := h r (List.mem_cons_self r rs)
    have hrest : ∀ x ∈ rs, hitAnchor f l x = false :=
      fun x hx => h x (List.mem_cons_of_mem r hx)
    simp only [rowAct]
    rw [hr, ih hrest]
    simp

theorem hitAnchor_false_of_noAnchor {a b : Nat} {rs : List Nat} (h : noAnchor a b rs) :
    ∀ r ∈ rs, hitAnchor (some a) (some b) r = false := by
  intro r hr
  have hne := h r hr
  unfold hitAnchor
  simp only [Bool.or_eq_false_iff]
  constructor
  · simp only [beq_eq_false_iff_ne]
    intro he
    exact hne.1 (by simpa using he.symm)
  · simp only [beq_eq_false_iff_ne]
    intro he
    exact hne.2 (by simpa using he.symm)

theorem foldl_stepRow_char (f l : Option Nat) (rs : List Nat) : ∀ st : RangeState,
    rs.foldl (stepRow f l) st =
      { result := st.result ++ rowSeg f l st.inActiveRange rs,
        lastBlockId := st.lastBlockId,
        inActiveRange := rowAct f l st.inActiveRange rs,
        foundGapInSelection := st.foundGapInSelection } := by
  induction rs with
  | nil =>
    intro st
    simp [rowSeg, rowAct]
  | cons r rs ih =>
    intro st
    rw [List.foldl_cons, ih]
    simp only [stepRow, rowSeg, rowAct]
    cases hhit : hitAnchor f l r <;> cases hact : st.inActiveRange <;>
      simp [hhit, hact, rowSeg, rowAct, List.append_assoc]

theorem rowsOf_cons (e : Nat × Blk) (ms : List (Nat × Blk)) :
    rowsOf (e :: ms) = e.2.rows ++ rowsOf ms := by
  unfold rowsOf
  rw [List.map_cons, List.flatten_cons]

theorem rowsOf_append (l1 l2 : List (Nat × Blk)) :
    rowsOf (l1 ++ l2) = rowsOf l1 ++ rowsOf l2 := by
  unfold rowsOf
  rw [List.map_append, List.flatten_append]

theorem foldl_stepBlock_gapped (f l : Option Nat) : ∀ (ms : List (Nat × Blk))
    (st : RangeState), st.foundGapInSelection = true →
    ms.foldl (stepBlock f l) st = st := by
  intro ms
  induction ms with
  | nil => intro st _; rfl
  | cons e ms ih =>
    intro st hgap
    rw [List.foldl_cons]
    have hstep : stepBlock f l st e = st := by
      unfold stepBlock
      rw [hgap]
      simp
    rw [hstep]
    exact ih st hgap

theorem lastNumOr_ne_nil : ∀ (ms : List (Nat × Blk)) (d d' : Int), ms ≠ [] →
    lastNumOr d ms = lastNumOr d' ms := by
  intro ms
  induction ms with
  | nil => intro d d' h; cases h rfl
  | cons e ms ih =>
    intro d d' _
    unfold lastNumOr
    cases ms with
    | nil => rfl
    | cons e' ms' => exact ih (e.1 : Int) (e.1 : Int) (by simp)

theorem stepBlock_no_gap_branch (f l : Option Nat) (st : RangeState) (e : Nat × Blk)
    (hgap : st.foundGapInSelection = false)
    (hcond : (st.inActiveRange && !(st.lastBlockId + 1 == (e.1 : Int))) = false) :
    stepBlock f l st e =
      e.2.rows.foldl (stepRow f l) { st with lastBlockId := (e.1 : Int) } := by
  unfold stepBlock
  rw [hgap, hcond]
  simp

theorem foldl_stepBlock_fused (f l : Option Nat) : ∀ (ms : List (Nat × Blk))
    (st : RangeState), st.foundGapInSelection = false → gapFree f l st ms = true →
    ms.foldl (stepBlock f l) st =
      { result := st.result ++ rowSeg f l st.inActiveRange (rowsOf ms),
        lastBlockId := lastNumOr st.lastBlockId ms,
        inActiveRange := rowAct f l st.inActiveRange (rowsOf ms),
        foundGapInSelection := false } := by
  intro ms
  induction ms with
  | nil =>
    intro st hgap _
    obtain ⟨res, lb, act, fg⟩ := st
    simp only at hgap
    rw [hgap]
    simp [rowsOf, rowSeg, rowAct, lastNumOr]
  | cons e ms ih =>
    intro st hgap hfree
    simp only [gapFree, Bool.and_eq_true] at hfree
    obtain ⟨hfst, hrest⟩ := hfree
    have hcond : (st.inActiveRange && !(st.lastBlockId + 1 == (e.1 : Int))) = false := by
      cases hact : st.inActiveRange
      · simp
      · rw [hact] at hfst
        simp only [Bool.not_true, Bool.false_or] at hfst
        simp [hfst]
    have hstep := stepBlock_no_gap_branch f l st e hgap hcond
    have hchar := foldl_stepRow_char f l e.2.rows { st with lastBlockId := (e.1 : Int) }
    rw [List.foldl_cons]
    rw [hstep] at hrest ⊢
    rw [hchar] at hrest ⊢
    rw [ih _ (by exact hgap) hrest]
    simp only [rowsOf_cons]
    rw [rowSeg_append, rowAct_append, List.append_assoc]
    simp only [lastNumOr]

theorem gapFree_noHit (f l : Option Nat) : ∀ (ms : List (Nat × Blk)) (st : RangeState),
    st.inActiveRange = false →
    (∀ r ∈ rowsOf ms, hitAnchor f l r = false) →
    gapFree f l st ms = true := by
  intro ms
  induction ms with
  | nil => intro st _ _; rfl
  | cons e ms ih =>
    intro st hact hnohit
    have hrows : ∀ r ∈ e.2.rows, hitAnchor f l r = false := by
      intro r hr
      apply hnohit
      rw [rowsOf_cons]
      exact List.mem_append.mpr (Or.inl hr)
    have hrest : ∀ r ∈ rowsOf ms, hitAnchor f l r = false := by
      intro r hr
      apply hnohit
      rw [rowsOf_cons]
      exact List.mem_append.mpr (Or.inr hr)
    simp only [gapFree, Bool.and_eq_true]
    refine ⟨by rw [hact]; simp, ?_⟩
    apply ih
    · -- the step keeps the flag off
      cases hgap : st.foundGapInSelection
      · have hcond : (st.inActiveRange && !(st.lastBlockId + 1 == (e.1 : Int))) = false := by
          rw [hact]
          simp
        rw [stepBlock_no_gap_branch f l st e hgap hcond, foldl_stepRow_char]
        simp only []
        rw [rowAct_noHit f l e.2.rows hrows]
        exact hact
      · have hstep : stepBlock f l st e = st := by
          unfold stepBlock
          rw [hgap]
          simp
        rw [hstep]
        exact hact
    · exact hrest

theorem gapFree_consec (f l : Option Nat) : ∀ (ms : List (Nat × Blk)) (st : RangeState),
    st.foundGapInSelection = false → consecRun ms = true →
    (∀ e, ms.head? = some e → st.inActiveRange = true → st.lastBlockId + 1 = (e.1 : Int)) →
    gapFree f l st ms = true := by
  intro ms
  induction ms with
  | nil => intro st _ _ _; rfl
  | cons e ms ih =>
    intro st hgap hconsec hhead
    simp only [gapFree, Bool.and_eq_true]
    have hfst : (!st.inActiveRange || (st.lastBlockId + 1 == (e.1 : Int))) = true := by
      cases hact : st.inActiveRange
      · simp
      · have := hhead e rfl hact
        simp [this]
    refine ⟨hfst, ?_⟩
    have hcond : (st.inActiveRange && !(st.lastBlockId + 1 == (e.1 : Int))) = false := by
      cases hact : st.inActiveRange
      · simp
      · rw [hact] at hfst
        simp only [Bool.not_true, Bool.false_or] at hfst
        simp [hfst]
    rw [stepBlock_no_gap_branch f l st e hgap hcond, foldl_stepRow_char]
    apply ih
    · exact hgap
    · cases ms with
      | nil => rfl
      | cons e' ms' =>
        simp only [consecRun, Bool.and_eq_true] at hconsec
        exact hconsec.2
    · intro e' he' _
      cases ms with
      | nil => cases he'
      | cons e2 ms' =>
        simp only [List.head?_cons, Option.some.injEq] at he'
        simp only [consecRun, Bool.and_eq_true] at hconsec
        have : e2.1 = e.1 + 1 := by
          have := hconsec.1
          simpa using this
        rw [← he', this]
        push_cast
        ring

theorem foldl_stepBlock_noGap (f l : Option Nat) : ∀ (ms : List (Nat × Blk))
    (st : RangeState),
    (ms.foldl (stepBlock f l) st).foundGapInSelection = false →
    st.foundGapInSelection = false ∧
    (ms.foldl (stepBlock f l) st).inActiveRange =
      rowAct f l st.inActiveRange (rowsOf ms) := by
  intro ms
  induction ms with
  | nil =>
    intro st h
    exact ⟨h, rfl⟩
  | cons e ms ih =>
    intro st hfin
    rw [List.foldl_cons] at hfin ⊢
    have hgap : st.foundGapInSelection = false := by
      cases hgap : st.foundGapInSelection
      · rfl
      · exfalso
        have hstep : stepBlock f l st e = st := by
          unfold stepBlock
          rw [hgap]
          simp
        rw [hstep, foldl_stepBlock_gapped f l ms st hgap] at hfin
        rw [hgap] at hfin
        cases hfin
    cases hcond : (st.inActiveRange && !(st.lastBlockId + 1 == (e.1 : Int)))
    · have hstep := stepBlock_no_gap_branch f l st e hgap hcond
      rw [hstep, foldl_stepRow_char] at hfin ⊢
      have hrec := ih _ hfin
      refine ⟨hgap, ?_⟩
      rw [hrec.2]
      simp only []
      rw [rowsOf_cons, rowAct_append]
    · exfalso
      have hstep : stepBlock f l st e = { st with foundGapInSelection := true } := by
        unfold stepBlock
        rw [hgap, hcond]
        simp
      rw [hstep] at hfin
      rw [foldl_stepBlock_gapped f l ms _ (by rfl)] at hfin
      cases hfin

theorem dropWhile_ne_append (a : Nat) : ∀ (u v : List Nat), (∀ r ∈ u, r ≠ a) →
    (u ++ a :: v).dropWhile (fun r => !(r == a)) = a :: v := by
  intro u
  induction u with
  | nil =>
    intro v _
    rw [List.nil_append, List.dropWhile_cons]
    simp
  | cons x u ih =>
    intro v hu
    have hx : x ≠ a := hu x (List.mem_cons_self x u)
    rw [List.cons_append, List.dropWhile_cons]
    have hbx : ((x == a) : Bool) = false := by simpa using hx
    rw [hbx]
    simp only [Bool.not_false, if_pos]
    exact ih v (fun r hr => hu r (List.mem_cons_of_mem x hr))

theorem takeToIncl_no_b (b : Nat) : ∀ (m w : List Nat), (∀ r ∈ m, r ≠ b) →
    takeToIncl b (m ++ b :: w) = m ++ [b] := by
  intro m
  induction m with
  | nil =>
    intro w _
    rw [List.nil_append]
    unfold takeToIncl
    simp
  | cons x m ih =>
    intro w hm
    have hx : x ≠ b := hm x (List.mem_cons_self x m)
    rw [List.cons_append]
    unfold takeToIncl
    have hbx : ((x == b) : Bool) = false := by simpa using hx
    rw [hbx]
    simp only [Bool.false_eq_true, if_false, List.cons_append]
    rw [ih w (fun r hr => hm r (List.mem_cons_of_mem x hr))]

/-! ## C9: an absent first anchor demands that block 0 be present -/

/-- C9: when `firstInRange` is absent the walk starts already inside the
active range with the gap counter at block `-1`, so the very first block
visited trips the gap check unless its number is 0: whenever the smallest
registered block number is nonzero the result is empty, regardless of
`lastInRange` and of how contiguous the registered blocks are among
themselves. -/
theorem range_from_top_requires_block_zero (s : CacheState) (lastInRange : Option Nat)
    (q : Nat × Blk) (rest : List (Nat × Blk))
    (hsplit : entriesInOrder s = q :: rest) (hq : q.1 ≠ 0) :
    getRowNodesInRange s none lastInRange = [] := by
  simp only [getRowNodesInRange, Option.isNone_none]
  rw [hsplit, List.foldl_cons]
  have hstep : stepBlock none lastInRange
      { result := [], lastBlockId := -1, inActiveRange := true,
        foundGapInSelection := false } q =
      { result := [], lastBlockId := -1, inActiveRange := true,
        foundGapInSelection := true } := by
    unfold stepBlock
    have hbeq : (((-1 : Int) + 1) == (q.1 : Int)) = false := by
      simp only [beq_eq_false_iff_ne]
      intro he
      apply hq
      omega
    rw [if_neg (by simp), if_pos (by simp; omega)]
  rw [hstep]
  rw [foldl_stepBlock_gapped _ _ rest _ (by rfl)]
  simp

/-- C9 witness: blocks 1 and 2 are registered and contiguous, the closing
anchor 13 is present, yet the result is empty because block 0 is missing. -/
theorem range_from_top_requires_block_zero_witness :
    entriesInOrder sNoZero =
      [(1, mkBlk 1 1 BlockState.loaded [12, 13]), (2, mkBlk 2 2 BlockState.loaded [14, 15])] ∧
    getRowNodesInRange sNoZero none (some 13) = [] := by
  refine ⟨by decide, ?_⟩
  exact range_from_top_requires_block_zero sNoZero (some 13)
    (1, mkBlk 1 1 BlockState.loaded [12, 13])
    [(2, mkBlk 2 2 BlockState.loaded [14, 15])]
    (by decide) (by decide)

theorem hitAnchor_fst (a b : Nat) : hitAnchor (some a) (some b) a = true := by
  simp [hitAnchor]

theorem hitAnchor_snd (a b : Nat) : hitAnchor (some a) (some b) b = true := by
  simp [hitAnchor]

theorem rowSeg_anchor_segment (a b : Nat) (u mid w : List Nat)
    (hu : noAnchor a b u) (hmid : noAnchor a b mid) (hw : noAnchor a b w) :
    rowSeg (some a) (some b) false (u ++ a :: (mid ++ b :: w)) = a :: (mid ++ [b]) ∧
    rowAct (some a) (some b) false (u ++ a :: (mid ++ b :: w)) = false := by
  have hu' := hitAnchor_false_of_noAnchor hu
  have hmid' := hitAnchor_false_of_noAnchor hmid
  have hw' := hitAnchor_false_of_noAnchor hw
  constructor
  · rw [rowSeg_append, rowSeg_noHit _ _ u hu', rowAct_noHit _ _ u hu']
    simp only [Bool.false_eq_true, if_false, List.nil_append]
    simp only [rowSeg, hitAnchor_fst, Bool.or_true, Bool.not_false, if_true]
    rw [rowSeg_append, rowSeg_noHit _ _ mid hmid', rowAct_noHit _ _ mid hmid']
    simp only [if_pos]
    simp only [rowSeg, hitAnchor_snd, Bool.or_true, Bool.not_true, if_true]
    rw [rowSeg_noHit _ _ w hw']
    simp
  · rw [rowAct_append, rowAct_noHit _ _ u hu']
    simp only [rowAct, hitAnchor_fst, if_true, Bool.not_false]
    rw [rowAct_append, rowAct_noHit _ _ mid hmid']
    simp only [rowAct, hitAnchor_snd, if_true, Bool.not_true]
    exact rowAct_noHit _ _ w hw' false

theorem rowAct_single_anchor (a b : Nat) (u v : List Nat)
    (hu : noAnchor a b u) (hv : noAnchor a b v) :
    rowAct (some a) (some b) false (u ++ a :: v) = true := by
  rw [rowAct_append, rowAct_noHit _ _ u (hitAnchor_false_of_noAnchor hu)]
  simp only [rowAct, hitAnchor_fst, if_true, Bool.not_false]
  exact rowAct_noHit _ _ v (hitAnchor_false_of_noAnchor hv) true

/-! ## C5: range materialization between two anchors -/

/-- C5: with both anchors registered, the blocks from the opening anchor's
block through the closing anchor's block forming a contiguous ascending
run, and the anchors occurring nowhere else, `getRowNodesInRange` returns
exactly the rows from the opening anchor to the closing anchor inclusive in
ascending block/row order — equal to the specification's slice of the
cache's row sequence; if a block inside the anchored span is missing, the
result is empty; and if the closing anchor is never reached, the result is
empty. -/
theorem range_materialization (s : CacheState) (a b : Nat) :
    (∀ (E1 Ms E2 : List (Nat × Blk)) (u mid w : List Nat),
      entriesInOrder s = E1 ++ Ms ++ E2 →
      consecRun Ms = true →
      rowsOf Ms = u ++ a :: (mid ++ b :: w) →
      a ≠ b →
      noAnchor a b (rowsOf E1) → noAnchor a b u → noAnchor a b mid →
      noAnchor a b w → noAnchor a b (rowsOf E2) →
      getRowNodesInRange s (some a) (some b) = a :: (mid ++ [b]) ∧
        rowsInRangeSpec s a b = a :: (mid ++ [b])) ∧
    (∀ (E1 Ms : List (Nat × Blk)) (q : Nat × Blk) (E2 : List (Nat × Blk)) (u v : List Nat),
      entriesInOrder s = E1 ++ Ms ++ q :: E2 →
      consecRun Ms = true → Ms ≠ [] →
      rowsOf Ms = u ++ a :: v →
      noAnchor a b (rowsOf E1) → noAnchor a b u → noAnchor a b v →
      (q.1 : Int) ≠ lastNumOr (-1) Ms + 1 →
      getRowNodesInRange s (some a) (some b) = []) ∧
    (∀ u v : List Nat,
      allRowsInOrder s = u ++ a :: v →
      noAnchor a b u → noAnchor a b v →
      getRowNodesInRange s (some a) (some b) = []) := by
  refine ⟨?_, ?_, ?_⟩
  · -- contiguous anchored span: exact slice
    intro E1 Ms E2 u mid w hsplit hconsec hflat hab hE1 hu hmid hw hE2
    have hE1' := hitAnchor_false_of_noAnchor hE1
    have hE2' := hitAnchor_false_of_noAnchor hE2
    have hseg := rowSeg_anchor_segment a b u mid w hu hmid hw
    have hmain : getRowNodesInRange s (some a) (some b) = a :: (mid ++ [b]) := by
      simp only [getRowNodesInRange, Option.isNone_some]
      rw [hsplit, List.foldl_append, List.foldl_append]
      have h1 : E1.foldl (stepBlock (some a) (some b))
          { result := [], lastBlockId := -1, inActiveRange := false,
            foundGapInSelection := false } =
          { result := [], lastBlockId := lastNumOr (-1) E1, inActiveRange := false,
            foundGapInSelection := false } := by
        rw [foldl_stepBlock_fused (some a) (some b) E1 _ rfl
          (gapFree_noHit (some a) (some b) E1 _ rfl hE1')]
        rw [RangeState.mk.injEq]
        refine ⟨?_, rfl, ?_, rfl⟩
        · rw [rowSeg_noHit _ _ _ hE1']
          simp
        · exact rowAct_noHit _ _ _ hE1' false
      rw [h1]
      have h2 : Ms.foldl (stepBlock (some a) (some b))
          { result := [], lastBlockId := lastNumOr (-1) E1, inActiveRange := false,
            foundGapInSelection := false } =
          { result := a :: (mid ++ [b]),
            lastBlockId := lastNumOr (lastNumOr (-1) E1) Ms, inActiveRange := false,
            foundGapInSelection := false } := by
        rw [foldl_stepBlock_fused (some a) (some b) Ms _ rfl
          (gapFree_consec (some a) (some b) Ms _ rfl hconsec
            (fun e _ hact => absurd hact (by simp)))]
        rw [RangeState.mk.injEq]
        refine ⟨?_, rfl, ?_, rfl⟩
        · rw [hflat]
          rw [hseg.1]
          simp
        · rw [hflat]
          exact hseg.2
      rw [h2]
      have h3 : E2.foldl (stepBlock (some a) (some b))
          { result := a :: (mid ++ [b]),
            lastBlockId := lastNumOr (lastNumOr (-1) E1) Ms, inActiveRange := false,
            foundGapInSelection := false } =
          { result := a :: (mid ++ [b]),
            lastBlockId := lastNumOr (lastNumOr (lastNumOr (-1) E1) Ms) E2,
            inActiveRange := false, foundGapInSelection := false } := by
        rw [foldl_stepBlock_fused (some a) (some b) E2 _ rfl
          (gapFree_noHit (some a) (some b) E2 _ rfl hE2')]
        rw [RangeState.mk.injEq]
        refine ⟨?_, rfl, ?_, rfl⟩
        · rw [rowSeg_noHit _ _ _ hE2']
          simp
        · exact rowAct_noHit _ _ _ hE2' false
      rw [h3]
      simp
    refine ⟨hmain, ?_⟩
    unfold rowsInRangeSpec allRowsInOrder
    rw [hsplit, rowsOf_append, rowsOf_append, hflat]
    simp only [List.append_assoc, List.cons_append]
    have hdrop : (rowsOf E1 ++ (u ++ (a :: (mid ++ (b :: (w ++ rowsOf E2)))))).dropWhile
        (fun r => !(r == a)) = a :: (mid ++ (b :: (w ++ rowsOf E2))) := by
      rw [← List.append_assoc]
      apply dropWhile_ne_append
      intro r hr
      rcases List.mem_append.mp hr with h | h
      · exact (hE1 r h).1
      · exact (hu r h).1
    rw [hdrop]
    have hsplit2 : a :: (mid ++ (b :: (w ++ rowsOf E2))) =
        (a :: mid) ++ (b :: (w ++ rowsOf E2)) := by
      simp
    rw [hsplit2]
    rw [takeToIncl_no_b b (a :: mid) _ ?hnb]
    case hnb =>
      intro r hr
      rcases List.mem_cons.mp hr with h | h
      · rw [h]
        exact hab
      · exact (hmid r h).2
    simp
  · -- missing block inside the anchored span: empty result
    intro E1 Ms q E2 u v hsplit hconsec hne hflat hE1 hu hv hqnum
    have hE1' := hitAnchor_false_of_noAnchor hE1
    simp only [getRowNodesInRange, Option.isNone_some]
    rw [hsplit, List.foldl_append, List.foldl_append, List.foldl_cons]
    have h1 : E1.foldl (stepBlock (some a) (some b))
        { result := [], lastBlockId := -1, inActiveRange := false,
          foundGapInSelection := false } =
        { result := [], lastBlockId := lastNumOr (-1) E1, inActiveRange := false,
          foundGapInSelection := false } := by
      rw [foldl_stepBlock_fused (some a) (some b) E1 _ rfl
        (gapFree_noHit (some a) (some b) E1 _ rfl hE1')]
      rw [RangeState.mk.injEq]
      refine ⟨?_, rfl, ?_, rfl⟩
      · rw [rowSeg_noHit _ _ _ hE1']
        simp
      · exact rowAct_noHit _ _ _ hE1' false
    rw [h1]
    have h2 : Ms.foldl (stepBlock (some a) (some b))
        { result := [], lastBlockId := lastNumOr (-1) E1, inActiveRange := false,
          foundGapInSelection := false } =
        { result := rowSeg (some a) (some b) false (u ++ a :: v),
          lastBlockId := lastNumOr (-1) Ms, inActiveRange := true,
          foundGapInSelection := false } := by
      rw [foldl_stepBlock_fused (some a) (some b) Ms _ rfl
        (gapFree_consec (some a) (some b) Ms _ rfl hconsec
          (fun e _ hact => absurd hact (by simp)))]
      rw [RangeState.mk.injEq]
      refine ⟨?_, ?_, ?_, rfl⟩
      · rw [hflat]
        simp
      · exact lastNumOr_ne_nil Ms _ _ hne
      · rw [hflat]
        exact rowAct_single_anchor a b u v hu hv
    rw [h2]
    have hstep : stepBlock (some a) (some b)
        { result := rowSeg (some a) (some b) false (u ++ a :: v),
          lastBlockId := lastNumOr (-1) Ms, inActiveRange := true,
          foundGapInSelection := false } q =
        { result := rowSeg (some a) (some b) false (u ++ a :: v),
          lastBlockId := lastNumOr (-1) Ms, inActiveRange := true,
          foundGapInSelection := true } := by
      unfold stepBlock
      rw [if_neg (by simp), if_pos (by simp; omega)]
    rw [hstep]
    rw [foldl_stepBlock_gapped _ _ E2 _ (by rfl)]
    simp
  · -- closing anchor never reached: empty result
    intro u v hflat hu hv
    simp only [getRowNodesInRange, Option.isNone_some]
    cases hg : ((entriesInOrder s).foldl (stepBlock (some a) (some b))
        { result := [], lastBlockId := -1, inActiveRange := false,
          foundGapInSelection := false }).foundGapInSelection
    · have hng := foldl_stepBlock_noGap (some a) (some b) (entriesInOrder s)
        { result := [], lastBlockId := -1, inActiveRange := false,
          foundGapInSelection := false } hg
      have hrows : rowsOf (entriesInOrder s) = u ++ a :: v := hflat
      have hactfin : (List.foldl (stepBlock (some a) (some b))
          { result := [], lastBlockId := -1, inActiveRange := false,
            foundGapInSelection := false } (entriesInOrder s)).inActiveRange =
          rowAct (some a) (some b) false (u ++ a :: v) := by
        have h := hng.2
        rw [hrows] at h
        exact h
      rw [hactfin, rowAct_single_anchor a b u v hu hv]
      simp
    · simp

/-- C5 witness: rows 10..15 in contiguous blocks 0..2: the range from 11 to
14 materializes exactly; with block 1 missing the same range is empty; with
a closing anchor that never occurs the result is empty. -/
theorem range_materialization_witness :
    getRowNodesInRange sRun (some 11) (some 14) = [11, 12, 13, 14] ∧
    rowsInRangeSpec sRun 11 14 = [11, 12, 13, 14] ∧
    getRowNodesInRange sHole (some 11) (some 14) = [] ∧
    getRowNodesInRange sRun (some 11) (some 99) = [] := by
  have h1 := (range_materialization sRun 11 14).1 []
    [(0, mkBlk 0 0 BlockState.loaded [10, 11]), (1, mkBlk 1 1 BlockState.loaded [12, 13]),
     (2, mkBlk 2 2 BlockState.loaded [14, 15])] []
    [10] [12, 13] [15] (by decide) (by decide) (by decide) (by decide) (by decide)
    (by decide) (by decide) (by decide) (by decide)
  have h2 := (range_materialization sHole 11 14).2.1 []
    [(0, mkBlk 0 0 BlockState.loaded [10, 11])] (2, mkBlk 2 2 BlockState.loaded [14, 15]) []
    [10] [] (by decide) (by decide) (by decide) (by decide) (by decide) (by decide)
    (by decide) (by decide)
  have h3 := (range_materialization sRun 11 99).2.2 [10] [12, 13, 14, 15]
    (by decide) (by decide) (by decide)
  exact ⟨by rw [h1.1]; rfl, by rw [h1.2]; rfl, h2, h3⟩
